import Mathlib

/-!
Verification of the KickDropsMiner queue-scheduling core against its
natural-language specification.

The Lean definitions below are a shallow embedding of the Python source:

* `src/kick_models.py` — data model (`KickChannel`, `KickReward`,
  `KickCampaign`, `KickProgressCampaign`, `QueueItem`) and the payload
  parsers;
* `src/app/kick_app.py` — the scheduler (`KickMinerApp`) and the rotation
  worker (`QueueWorker`).

Modelling conventions:

* Python values appearing in JSON payloads are modelled by the inductive
  `Json` (floats are not needed by any claim and are not modelled;
  numeric JSON leaves are integers).
* Python `str`/truthiness/`int()` coercions are modelled by `pyStr`,
  `pyTruthy`, `pySafeInt` below, mirroring `_safe_int` and friends.
* Machine time (`time.time()`, `datetime.now`) is passed explicitly as an
  integer `now` (seconds since the Unix epoch).
* Network and browser calls (`KickBrowserClient.channel_live_status`) are
  side-effecting collaborators; they are modelled by an oracle
  `net : String → Option (Bool × Int)` giving, per slug, the parsed
  `(live, viewer_count)` on success and `none` when the call raises.
* In-place mutation of `QueueItem` objects is modelled by explicit state
  passing: functions return the updated item / queue / cache.
-/

namespace KickDrops

/-- Python-style JSON-ish values (`Any` leaves of the payload dicts).
Dicts are association lists; Python dict keys are unique, later writes
win, which the helpers below respect. -/
inductive Json where
  | null : Json
  | bool : Bool → Json
  | int : Int → Json
  | str : String → Json
  | arr : List Json → Json
  | obj : List (String × Json) → Json

/-- Python truthiness (`bool(x)`) for the modelled values. -/
def pyTruthy : Json → Bool
  | .null => false
  | .bool b => b
  | .int n => n != 0
  | .str s => s != ""
  | .arr xs => !xs.isEmpty
  | .obj kvs => !kvs.isEmpty

/-- `x or y` on modelled Python values. -/
def pyOr (a b : Json) : Json := if pyTruthy a then a else b

mutual
/-- Python `repr` for the modelled values (used by `str` on containers). -/
def pyRepr : Json → String
  | .null => "None"
  | .bool true => "True"
  | .bool false => "False"
  | .int n => toString n
  | .str s => "\x27" ++ s ++ "\x27"
  | .arr xs => "[" ++ pyReprList xs ++ "]"
  | .obj kvs => "\x7b" ++ pyReprKVs kvs ++ "\x7d"

/-- Comma-joined `repr`s of a list of values. -/
def pyReprList : List Json → String
  | [] => ""
  | [x] => pyRepr x
  | x :: xs => pyRepr x ++ ", " ++ pyReprList xs

/-- Comma-joined `repr`s of the key/value pairs of a dict. -/
def pyReprKVs : List (String × Json) → String
  | [] => ""
  | [(k, v)] => "\x27" ++ k ++ "\x27: " ++ pyRepr v
  | (k, v) :: kvs => "\x27" ++ k ++ "\x27: " ++ pyRepr v ++ ", " ++ pyReprKVs kvs
end

/-- Python `str(x)` for the modelled values. -/
def pyStr : Json → String
  | .null => "None"
  | .bool true => "True"
  | .bool false => "False"
  | .int n => toString n
  | .str s => s
  | .arr xs => "[" ++ pyReprList xs ++ "]"
  | .obj kvs => "\x7b" ++ pyReprKVs kvs ++ "\x7d"

/-- Python `dict.get(k)` (returns `None` when the key is absent).
Later occurrences of a key shadow earlier ones, as in a Python dict
built by repeated assignment. -/
def dictGet (kvs : List (String × Json)) (k : String) : Json :=
  kvs.foldl (fun acc p => if p.1 = k then p.2 else acc) Json.null

/-- One-sided whitespace removal on characters. -/
def dropWs (l : List Char) : List Char := l.dropWhile fun c => c.isWhitespace

/-- Python `str.strip()` (no arguments: whitespace from both ends),
modelled on the character list so that its algebra is provable. -/
def pyStrip (s : String) : String :=
  String.mk (((dropWs s.data).reverse |> dropWs).reverse)

/-- Python `str.lower()` / `str.casefold()` (they agree on the ASCII
identifiers this application compares). -/
def pyCasefold (s : String) : String := String.mk (s.data.map Char.toLower)

/-- Python `str.startswith`. -/
def pyStartsWith (s pre : String) : Bool := pre.data.isPrefixOf s.data

/-- Decimal digits to a number (the digits are validated by callers). -/
def pyDigitsToNat (l : List Char) : Nat :=
  l.foldl (fun n c => n * 10 + (c.toNat - Char.toNat (Char.ofNat 48))) 0

/-- A non-empty all-digit string, as a number. -/
def parseDigits (s : String) : Option Nat :=
  if !s.data.isEmpty && s.data.all Char.isDigit then some (pyDigitsToNat s.data)
  else none

/-- The split accumulator of `str.split(sep)` for a 1-character
separator (the only shape the source uses): empty pieces are kept. -/
def splitOnCharAux (sep : Char) : List Char → List Char → List String
  | [], acc => [String.mk acc.reverse]
  | c :: rest, acc =>
    if c = sep then String.mk acc.reverse :: splitOnCharAux sep rest []
    else splitOnCharAux sep rest (c :: acc)

/-- Python `s.split(sep)` for a 1-character separator
(`"".split(sep) = [""]`). -/
def pySplitOnChar (sep : Char) (s : String) : List String :=
  splitOnCharAux sep s.data []

/-- The scanning loop of `str.replace`: replace each non-overlapping
occurrence of `o :: ot`, left to right. -/
def replaceAux (o : Char) (ot : List Char) (newL : List Char) : List Char → List Char
  | [] => []
  | c :: rest =>
    if (o :: ot).isPrefixOf (c :: rest) then
      newL ++ replaceAux o ot newL (rest.drop ot.length)
    else c :: replaceAux o ot newL rest
termination_by l => l.length
decreasing_by
  all_goals simp [List.length_drop]
  omega

/-- Python `s.replace(old, new)` (the source never passes an empty
`old`, for which the identity is returned). -/
def pyReplace (s old new : String) : String :=
  match old.data with
  | [] => s
  | o :: ot => String.mk (replaceAux o ot new.data s.data)

/-- Python `<` on individual characters (code-point order). -/
def charListLtb : List Char → List Char → Bool
  | [], [] => false
  | [], _ :: _ => true
  | _ :: _, [] => false
  | a :: as, b :: bs =>
    if a < b then true else if b < a then false else charListLtb as bs

/-- Python `<` on strings: lexicographic by code point. -/
def strLtb (a b : String) : Bool := charListLtb a.data b.data

/-- Python `int(s)` on a string: optional sign after stripping
whitespace, then decimal digits; `none` models `ValueError`. -/
def pyIntOfString (s : String) : Option Int :=
  let t := pyStrip s
  if pyStartsWith t "-" then
    (parseDigits (t.drop 1)).map (fun n => -(n : Int))
  else if pyStartsWith t "+" then
    (parseDigits (t.drop 1)).map (fun n => (n : Int))
  else
    (parseDigits t).map (fun n => (n : Int))

/-- `_safe_int` from `src/kick_models.py`: `int(value)` with a default
for `None` and for `TypeError`/`ValueError` (`int(True) = 1`). -/
def pySafeInt (value : Json) (default : Int := 0) : Int :=
  match value with
  | .null => default
  | .int n => n
  | .bool b => if b then 1 else 0
  | .str s => (pyIntOfString s).getD default
  | .arr _ => default
  | .obj _ => default

end KickDrops

namespace KickDrops

/-- The Python exceptions the parse path can raise: attribute access
(`.get`) on a non-dict, and iteration over a non-iterable. -/
inductive PyErr where
  | attributeError : PyErr
  | typeError : PyErr
deriving DecidableEq, Repr

/-- `isinstance(v, dict)`: the underlying association list, when `v` is
a dict. -/
def Json.asDict : Json → Option (List (String × Json))
  | .obj kvs => some kvs
  | _ => none

/-- `for x in (v or [])`: falsy values iterate as the empty list;
lists iterate their elements; strings iterate their characters (as
1-character strings); dicts iterate their keys; other truthy values
raise `TypeError`. -/
def pyIterElems (v : Json) : Except PyErr (List Json) :=
  if pyTruthy v then
    match v with
    | .arr xs => .ok xs
    | .str s => .ok (s.data.map fun c => Json.str (String.singleton c))
    | .obj kvs => .ok (kvs.map fun p => Json.str p.1)
    | _ => .error .typeError
  else
    .ok []

/-- `(v or \x7b\x7d).get`: attribute access after defaulting a falsy
value to the empty dict; truthy non-dicts raise `AttributeError`. -/
def pyDictOrEmpty (v : Json) : Except PyErr (List (String × Json)) :=
  if pyTruthy v then
    match v with
    | .obj kvs => .ok kvs
    | _ => .error .attributeError
  else
    .ok []

/-- Python `float(s)` on a string, restricted to plain decimal literals
(the payload fields this application reads); `none` models
`ValueError`. -/
def pyFloatOfString (s : String) : Option Rat :=
  let t := s.trim
  let unsigned := fun (u : String) =>
    match u.splitOn "." with
    | [a] => if a ≠ "" ∧ a.all Char.isDigit then some ((a.toNat?.getD 0 : Int) : Rat) else none
    | [a, b] =>
        if (a ≠ "" ∨ b ≠ "") ∧ a.all Char.isDigit ∧ b.all Char.isDigit then
          some (((a.toNat?.getD 0 : Int) : Rat) +
            (b.toNat?.getD 0 : Int) / ((10 : Rat) ^ b.length))
        else none
    | _ => none
  if t.startsWith "-" then (unsigned (t.drop 1)).map (fun q => -q)
  else if t.startsWith "+" then unsigned (t.drop 1)
  else unsigned t

/-- `_safe_float` from `src/kick_models.py` (reals modelled as `Rat`;
no claim depends on float rounding). -/
def pySafeFloat (value : Json) (default : Rat := 0) : Rat :=
  match value with
  | .null => default
  | .int n => (n : Rat)
  | .bool b => if b then 1 else 0
  | .str s => (pyFloatOfString s).getD default
  | .arr _ => default
  | .obj _ => default

/-- `KickChannel` from `src/kick_models.py`. -/
structure KickChannel where
  slug : String
  username : String
  url : String
  profile_picture : String := ""
deriving DecidableEq, Repr

/-- `KickChannel.from_campaign_channel`: `none` when the slug is
empty/missing; raises when a truthy non-dict sits under `"user"`. -/
def KickChannel.from_campaign_channel (data : List (String × Json)) :
    Except PyErr (Option KickChannel) :=
  let slug := pyStrip (pyStr (pyOr (dictGet data "slug") (.str "")))
  if slug = "" then .ok none
  else
    (pyDictOrEmpty (dictGet data "user")).bind fun user =>
      .ok (some
        { slug := slug
          username := pyStr (pyOr (dictGet user "username") (.str slug))
          url := "https://kick.com/" ++ slug
          profile_picture := pyStr (pyOr (dictGet user "profile_picture") (.str "")) })

/-- `KickReward` from `src/kick_models.py`. -/
structure KickReward where
  id : String
  name : String
  required_units : Int := 0
  image_url : String := ""
  claimed : Bool := false
  progress : Rat := 0
deriving DecidableEq, Repr

/-- `KickReward.from_api` (total: every field is read through a safe
coercion). -/
def KickReward.from_api (data : List (String × Json)) : KickReward :=
  { id := pyStr (pyOr (dictGet data "id") (.str ""))
    name := pyStr (pyOr (dictGet data "name") (.str "Unknown Reward"))
    required_units := pySafeInt (dictGet data "required_units")
    image_url := pyStr (pyOr (pyOr (dictGet data "image_url") (dictGet data "image")) (.str ""))
    claimed := pyTruthy (dictGet data "claimed")
    progress := max 0 (min 1 (pySafeFloat (dictGet data "progress") 0)) }

/-- `KickCampaign` from `src/kick_models.py`.  `starts_at`/`ends_at`
are kept as raw payload values, exactly as `from_api` stores them. -/
structure KickCampaign where
  id : String
  name : String
  game : String
  game_slug : String := ""
  game_image : String := ""
  category_id : Option Int := none
  status : String := "unknown"
  starts_at : Json := .null
  ends_at : Json := .null
  rewards : List KickReward := []
  channels : List KickChannel := []
  progress_status : String := "not_started"
  progress_units : Int := 0
  raw : List (String × Json) := []

/-- The `channels` accumulation loop of `KickCampaign.from_api`:
non-dict entries are skipped by the caller, `None` results are skipped
here, and channel-level exceptions propagate. -/
def channelsFromApi : List (List (String × Json)) → Except PyErr (List KickChannel)
  | [] => .ok []
  | d :: ds => do
    let c? ← KickChannel.from_campaign_channel d
    let rest ← channelsFromApi ds
    match c? with
    | some c => return c :: rest
    | none => return rest

/-- `KickCampaign.from_api`.  Exceptions follow the source's evaluation
order: the `rewards` iteration, then the `channels` iteration, then the
attribute accesses on `category`. -/
def KickCampaign.from_api (data : List (String × Json)) : Except PyErr KickCampaign :=
  (pyIterElems (dictGet data "rewards")).bind fun rewardElems =>
  let rewards := (rewardElems.filterMap Json.asDict).map KickReward.from_api
  (pyIterElems (dictGet data "channels")).bind fun channelElems =>
  (channelsFromApi (channelElems.filterMap Json.asDict)).bind fun channels =>
  (pyDictOrEmpty (dictGet data "category")).bind fun category =>
  .ok {
      id := pyStr (pyOr (dictGet data "id") (.str ""))
      name := pyStr (pyOr (dictGet data "name") (.str "Unknown Campaign"))
      game := pyStr (pyOr (dictGet category "name") (.str "Unknown Game"))
      game_slug := pyStr (pyOr (dictGet category "slug") (.str ""))
      game_image := pyStr (pyOr (dictGet category "image_url") (.str ""))
      category_id := (if pySafeInt (dictGet category "id") 0 = 0 then none
        else some (pySafeInt (dictGet category "id") 0))
      status := pyStr (pyOr (dictGet data "status") (.str "unknown"))
      starts_at := dictGet data "starts_at"
      ends_at := dictGet data "ends_at"
      rewards := rewards
      channels := channels
      raw := data }

/-- The campaigns list comprehension of `parse_campaigns_response`:
`from_api` over the dict entries, propagating exceptions. -/
def campaignsFromApi : List (List (String × Json)) → Except PyErr (List KickCampaign)
  | [] => .ok []
  | d :: ds => do
    let c ← KickCampaign.from_api d
    let rest ← campaignsFromApi ds
    return c :: rest

/-- `parse_campaigns_response` from `src/kick_models.py`. -/
def parse_campaigns_response (payload : List (String × Json)) :
    Except PyErr (List KickCampaign) :=
  match pyOr (dictGet payload "data") (.arr []) with
  | .arr items =>
    (campaignsFromApi (items.filterMap Json.asDict)).bind fun campaigns =>
      .ok (campaigns.filter (fun c => c.id ≠ ""))
  | _ => .ok []

/-- `KickProgressReward` from `src/kick_models.py` (only the fields the
scheduler reads). -/
structure KickProgressReward where
  id : String
  progress : Rat
  claimed : Bool
  required_units : Int
  name : String := ""
deriving DecidableEq, Repr

/-- `KickProgressCampaign` from `src/kick_models.py` (only the fields
the scheduler reads). -/
structure KickProgressCampaign where
  id : String
  name : String
  status : String
  progress_units : Int
  category_name : String := "Unknown"
  rewards : List KickProgressReward := []
deriving DecidableEq, Repr

/-- `QueueItem` from `src/kick_models.py`. -/
structure QueueItem where
  url : String
  minutes_target : Int := 0
  elapsed_seconds : Int := 0
  status : String := "PENDING"
  campaign_id : Option String := none
  campaign_name : Option String := none
  category_id : Option Int := none
  notes : String := ""
deriving DecidableEq, Repr

/-- `QueueItem.slug`: last non-empty path segment of the url. -/
def QueueItem.slug (item : QueueItem) : String :=
  pyStrip (((item.url.dropRightWhile (· = '/')).splitOn "/").getLastD "")

/-- `QueueItem.done`. -/
def QueueItem.done (item : QueueItem) : Bool :=
  item.minutes_target > 0 && item.elapsed_seconds ≥ item.minutes_target * 60

/-- `QueueItem.to_dict` (`dataclasses.asdict`, in field order). -/
def QueueItem.to_dict (item : QueueItem) : List (String × Json) :=
  [ ("url", .str item.url)
  , ("minutes_target", .int item.minutes_target)
  , ("elapsed_seconds", .int item.elapsed_seconds)
  , ("status", .str item.status)
  , ("campaign_id", match item.campaign_id with | some s => .str s | none => .null)
  , ("campaign_name", match item.campaign_name with | some s => .str s | none => .null)
  , ("category_id", match item.category_id with | some n => .int n | none => .null)
  , ("notes", .str item.notes) ]

/-- How the embedding stores a raw payload value into an
`Option String` dataclass slot: `None` ↦ `none`, strings kept; other
values (which Python would store unconverted, violating the dataclass
annotation) are coerced through `str`. -/
def jsonOptStr : Json → Option String
  | .null => none
  | .str s => some s
  | v => some (pyStr v)

/-- `QueueItem.from_dict`. -/
def QueueItem.from_dict (data : List (String × Json)) : QueueItem :=
  { url := pyStr (pyOr (dictGet data "url") (.str ""))
    minutes_target := pySafeInt (dictGet data "minutes_target") (pySafeInt (dictGet data "minutes"))
    elapsed_seconds := pySafeInt (dictGet data "elapsed_seconds") (pySafeInt (dictGet data "elapsed"))
    status := pyStr (pyOr (dictGet data "status") (.str "PENDING"))
    campaign_id := jsonOptStr (dictGet data "campaign_id")
    campaign_name := jsonOptStr (dictGet data "campaign_name")
    category_id := (if pySafeInt (dictGet data "category_id") 0 = 0 then none
      else some (pySafeInt (dictGet data "category_id") 0))
    notes := pyStr (pyOr (dictGet data "notes") (.str "")) }

/-- The queue-restoring loop of `AppConfig.from_dict`
(`src/app/kick_app.py`): non-dict entries are skipped; `from_dict`
itself never raises, so the `try` is a no-op. -/
def queueItemsFromRaw (rawItems : List Json) : List QueueItem :=
  (rawItems.filterMap Json.asDict).map QueueItem.from_dict

end KickDrops

namespace KickDrops

/-- `ALL_GAMES_TOKEN` from `src/app/kick_app.py`. -/
def ALL_GAMES_TOKEN : String := "__ALL_GAMES__"

/-- `AUTO_GAMES_CHANNEL_SOURCE` from `src/app/kick_app.py`. -/
def AUTO_GAMES_CHANNEL_SOURCE : String := "source=auto-games-channel"

/-- Python `needle in hay` on strings, over character lists. -/
def listContainsSub (needle : List Char) : List Char → Bool
  | [] => needle.isEmpty
  | l@(_ :: t) => needle.isPrefixOf l || listContainsSub needle t

/-- Python substring membership `needle in hay`. -/
def strContainsSub (hay needle : String) : Bool :=
  listContainsSub needle.data hay.data

/-- Python `str.lower()`. -/
def pyLower (s : String) : String := String.mk (s.data.map Char.toLower)

/-- The dedup/cleaning loop of `_normalize_preferred_games`
(`src/app/kick_app.py` lines 1681-1691): keep stripped non-empty
entries, first occurrence per casefolded key. -/
def cleanPreferredGames : List String → List String → List String
  | [], _ => []
  | raw :: rest, seen =>
    let game := pyStrip raw
    if game = "" then cleanPreferredGames rest seen
    else if pyCasefold game ∈ seen then cleanPreferredGames rest seen
    else game :: cleanPreferredGames rest (pyCasefold game :: seen)

/-- `KickMinerApp._normalize_preferred_games`.  `sorted(·, key=casefold)`
is a stable sort by the casefolded name, modelled by `mergeSort`. -/
def normalizePreferredGames (values : List String) : List String :=
  let cleaned := cleanPreferredGames values []
  if cleaned.any (fun g => g = ALL_GAMES_TOKEN) then [ALL_GAMES_TOKEN]
  else if !cleaned.isEmpty then
    cleaned.mergeSort (fun a b => pyCasefold a ≤ pyCasefold b)
  else [ALL_GAMES_TOKEN]

/-- `KickMinerApp._preferred_game_filter`: `(mine_all, selected-games
set)`.  The Python `set` is modelled as the list of its elements (only
membership is ever used). -/
def preferredGameFilter (prefs : List String) : Bool × List String :=
  let normalized := normalizePreferredGames prefs
  (normalized.contains ALL_GAMES_TOKEN,
    (normalized.filter fun g => g ≠ ALL_GAMES_TOKEN ∧ pyStrip g ≠ "").map
      fun g => pyCasefold (pyStrip g))

/-- `KickMinerApp._is_auto_games_channel_item`: the discovery marker is
a substring of the notes (`str(item.notes or "")` equals `item.notes`
for every string). -/
def isAutoGamesChannelItem (item : QueueItem) : Bool :=
  strContainsSub item.notes AUTO_GAMES_CHANNEL_SOURCE

/-- `KickMinerApp._build_auto_games_item_notes`. -/
def buildAutoGamesItemNotes (campaign : KickCampaign) (channel : KickChannel)
    (viewers : Int) : String :=
  AUTO_GAMES_CHANNEL_SOURCE ++ " | game=" ++ campaign.game ++ " | auto=" ++
    channel.slug ++ " (" ++ toString (max 0 viewers) ++ " viewers)"

/-- `KickMinerApp._channel_live_sort_key`. -/
def channelLiveSortKey (live : Option Bool) (viewers : Int) (slug : String) :
    Int × Int × String :=
  let rank : Int := match live with
    | some true => 0
    | some false => 1
    | none => 2
  (rank, -(max 0 viewers), pyCasefold slug)

/-- Python `<` on the sort-key triples (lexicographic tuple order,
strings compared lexicographically by code point). -/
def keyLtb (a b : Int × Int × String) : Bool :=
  a.1 < b.1 || (a.1 = b.1 && (a.2.1 < b.2.1 ||
    (a.2.1 = b.2.1 && strLtb a.2.2 b.2.2)))

/-- `sorted(..., key=...)` comparison used for the desired rows: stable
sort by non-strict tuple order, which agrees with Python's stable sort
by `<` on the keys. -/
def keyLeb (a b : Int × Int × String) : Bool := !(keyLtb b a)

/-- Days since 1970-01-01 of a proleptic-Gregorian civil date
(the standard era-based algorithm, as used by Python's `datetime`). -/
def daysFromCivil (y : Int) (m d : Int) : Int :=
  let y' := if m ≤ 2 then y - 1 else y
  let era := (if 0 ≤ y' then y' else y' - 399) / 400
  let yoe := y' - era * 400
  let mp := (m + 9) % 12
  let doy := (153 * mp + 2) / 5 + d - 1
  let doe := yoe * 365 + yoe / 4 - yoe / 100 + doy
  era * 146097 + doe - 719468

/-- The time-of-day part `HH:MM[:SS[.ffffff]]` of an ISO datetime, in
seconds (fractional seconds floor to the second; the scheduler only
compares whole timestamps). -/
def parseIsoTime (s : String) : Option Int := do
  let part := fun (u : String) (lim : Nat) => do
    let n ← parseDigits u
    if u.length = 2 ∧ n < lim then some n else none
  match s.splitOn ":" with
  | [hh, mm] => do
    let h ← part hh 24
    let m ← part mm 60
    return (h * 3600 + m * 60 : Int)
  | [hh, mm, ssf] => do
    let h ← part hh 24
    let m ← part mm 60
    let sec ← (match ssf.splitOn "." with
      | [ss] => part ss 60
      | [ss, frac] => do
        let n ← part ss 60
        let _ ← parseDigits frac
        some n
      | _ => none)
    return (h * 3600 + m * 60 + sec : Int)
  | _ => none

/-- The date part `YYYY-MM-DD`. -/
def parseIsoDate (s : String) : Option (Int × Int × Int) := do
  match s.splitOn "-" with
  | [ys, ms, ds] => do
    let y ← parseDigits ys
    let mo ← parseDigits ms
    let d ← parseDigits ds
    if ys.length = 4 ∧ ms.length = 2 ∧ ds.length = 2 ∧
        1 ≤ mo ∧ mo ≤ 12 ∧ 1 ≤ d ∧ d ≤ 31 then
      return ((y : Int), (mo : Int), (d : Int))
    else none
  | _ => none

/-- A `±HH:MM` UTC offset, in seconds. -/
def parseIsoOffset (s : String) : Option Int := do
  let sign : Int ← if s.startsWith "+" then some 1
    else if s.startsWith "-" then some (-1) else none
  let body := s.drop 1
  match body.splitOn ":" with
  | [hh, mm] => do
    let h ← parseDigits hh
    let m ← parseDigits mm
    if hh.length = 2 ∧ mm.length = 2 ∧ m < 60 then
      return sign * ((h : Int) * 3600 + (m : Int) * 60)
    else none
  | _ => none

/-- `datetime.fromisoformat` on the shapes this application feeds it:
`YYYY-MM-DD`, optionally followed by `' '` or `'T'` and
`HH:MM[:SS[.ffffff]]`, optionally followed by a `±HH:MM` offset.  The
result is the UTC epoch timestamp; a naive datetime is taken as UTC
(the source attaches `timezone.utc` to naive results). -/
def isoParse (s : String) : Option Int := do
  let (y, mo, d) ← parseIsoDate (s.take 10)
  let rest := s.drop 10
  if rest = "" then
    return daysFromCivil y mo d * 86400
  else
    let sep := rest.take 1
    if sep ≠ " " ∧ sep ≠ "T" then none
    else
      let timetz := rest.drop 1
      let signPos := (timetz.data.findIdx? fun c => c = '+' ∨ c = '-')
      match signPos with
      | none => do
        let t ← parseIsoTime timetz
        return daysFromCivil y mo d * 86400 + t
      | some i => do
        let t ← parseIsoTime (timetz.take i)
        let off ← parseIsoOffset (timetz.drop i)
        return daysFromCivil y mo d * 86400 + t - off

/-- `KickMinerApp._parse_kick_datetime`, with datetimes as UTC epoch
seconds.  The source first tries `fromisoformat` on the value with
`"Z"` replaced by `"+00:00"`; its three explicit `strptime` fallback
formats are special cases of the same shapes, so they add nothing. -/
def parseKickDatetime (value : Json) : Option Int :=
  let raw := pyStrip (pyStr (pyOr value (.str "")))
  if raw = "" then none
  else isoParse (pyReplace raw "Z" "+00:00")

/-- `KickMinerApp._is_campaign_expired`. -/
def isCampaignExpired (now : Int) : Option KickCampaign → Bool
  | none => false
  | some campaign =>
    let expiredTokens := ["expired", "ended", "closed", "past"]
    let statusValues :=
      [ pyReplace (pyLower (pyStrip campaign.status)) " " "_"
      , pyReplace (pyLower (pyStrip campaign.progress_status)) " " "_" ]
    if statusValues.any (fun v => v ≠ "" && expiredTokens.contains v) then true
    else
      match parseKickDatetime campaign.ends_at with
      | some endsAt => now ≥ endsAt
      | none => false

/-- `KickMinerApp._is_progress_campaign_finished`. -/
def isProgressCampaignFinished : Option KickProgressCampaign → Bool
  | none => false
  | some p =>
    if !p.rewards.isEmpty then p.rewards.all (fun r => r.claimed)
    else
      let status := pyLower (pyStrip p.status)
      ["claimed", "completed", "finished", "done"].contains status

/-- Python truthiness of an optional-string dataclass slot (`None` and
`""` are falsy). -/
def optStrTruthy : Option String → Bool
  | none => false
  | some s => s ≠ ""

/-- `campaign_by_id` (`{c.id: c for c in campaigns if c.id\x7d`) read
through `.get`: last writer wins, as in a dict comprehension. -/
def campaignById (campaigns : List KickCampaign) (key : String) : Option KickCampaign :=
  campaigns.foldl (fun acc c => if c.id ≠ "" ∧ c.id = key then some c else acc) none

/-- `campaign_by_name` keyed by `(name or "").strip().lower()`. -/
def campaignByName (campaigns : List KickCampaign) (key : String) : Option KickCampaign :=
  campaigns.foldl (fun acc c =>
    if pyStrip c.name ≠ "" ∧ pyLower (pyStrip c.name) = key then some c else acc) none

/-- `progress_by_id`. -/
def progressById (progress : List KickProgressCampaign) (key : String) :
    Option KickProgressCampaign :=
  progress.foldl (fun acc p => if p.id ≠ "" ∧ p.id = key then some p else acc) none

/-- `progress_by_name`. -/
def progressByName (progress : List KickProgressCampaign) (key : String) :
    Option KickProgressCampaign :=
  progress.foldl (fun acc p =>
    if pyStrip p.name ≠ "" ∧ pyLower (pyStrip p.name) = key then some p else acc) none

/-- `KickMinerApp._resolve_queue_item_campaign`. -/
def resolveQueueItemCampaign (campaigns : List KickCampaign) (item : QueueItem) :
    Option KickCampaign :=
  let byId := if optStrTruthy item.campaign_id then
      campaignById campaigns (item.campaign_id.getD "")
    else none
  match byId with
  | some c => some c
  | none =>
    if optStrTruthy item.campaign_name then
      campaignByName campaigns (pyLower (pyStrip (item.campaign_name.getD "")))
    else none

/-- `KickMinerApp._resolve_item_progress_campaign`. -/
def resolveItemProgressCampaign (progress : List KickProgressCampaign)
    (item : QueueItem) : Option KickProgressCampaign :=
  let byId := if optStrTruthy item.campaign_id then
      progressById progress (item.campaign_id.getD "")
    else none
  match byId with
  | some p => some p
  | none =>
    if optStrTruthy item.campaign_name then
      progressByName progress (pyLower (pyStrip (item.campaign_name.getD "")))
    else none

/-- `KickMinerApp._channel_live_cache`: slug ↦ `(live, viewers,
observed_at)`. -/
abbrev LiveCache := List (String × (Option Bool × Int × Int))

/-- Dict read on the cache (later writes win). -/
def cacheLookup (cache : LiveCache) (slug : String) : Option (Option Bool × Int × Int) :=
  cache.foldl (fun acc p => if p.1 = slug then some p.2 else acc) none

/-- Dict write on the cache. -/
def cacheInsert (cache : LiveCache) (slug : String) (v : Option Bool × Int × Int) :
    LiveCache :=
  if (cacheLookup cache slug).isSome then
    cache.map fun p => if p.1 = slug then (p.1, v) else p
  else cache ++ [(slug, v)]

/-- `KickMinerApp._get_channel_live_snapshot`.  `time.time()` is the
explicit `now` (the source's second reading, used for the stored
timestamp, is the same instant at this model's resolution); the
browser query is the oracle `net` (`none` = the call raised). -/
def getChannelLiveSnapshot (cache : LiveCache) (now : Int)
    (net : String → Option (Bool × Int)) (slug : String) (maxAge : Int)
    (useNetwork : Bool) : (Option Bool × Int) × LiveCache :=
  let cached := cacheLookup cache slug
  let fresh := match cached with
    | some (_, _, t) => decide (now - t ≤ maxAge)
    | none => false
  if fresh then
    (match cached with
      | some (l, v, _) => ((l, v), cache)
      | none => ((none, 0), cache))
  else if !useNetwork then
    (match cached with
      | some (l, v, _) => ((l, v), cache)
      | none => ((none, 0), cache))
  else
    match net slug with
    | some (live, viewers) =>
      ((some live, viewers), cacheInsert cache slug (some live, viewers, now))
    | none =>
      (match cached with
        | some (l, v, _) => ((l, v), cache)
        | none => ((none, 0), cache))

end KickDrops

namespace KickDrops

/-- Generic dict read over an association list (later writes win). -/
def dictFind {α : Type} (l : List (String × α)) (k : String) : Option α :=
  l.foldl (fun acc p => if p.1 = k then some p.2 else acc) none

/-- Generic dict write: assignment to an existing key keeps its
position (Python dict insertion order); a new key is appended. -/
def dictSet {α : Type} (l : List (String × α)) (k : String) (v : α) :
    List (String × α) :=
  if (dictFind l k).isSome then l.map fun p => if p.1 = k then (p.1, v) else p
  else l ++ [(k, v)]

/-- One entry of `desired_by_url` in
`KickMinerApp._auto_queue_selected_games`. -/
structure DesiredRow where
  campaign : KickCampaign
  channel : KickChannel
  live : Option Bool
  viewers : Int
  sortKey : Int × Int × String

/-- `str(channel.url or f"https://kick.com/\x7bchannel.slug\x7d")`, the
(unstripped) url recomputed per desired row (source line 1934). -/
def rowUrl (row : DesiredRow) : String :=
  if row.channel.url ≠ "" then row.channel.url
  else "https://kick.com/" ++ row.channel.slug

/-- The inner (per-channel) step of the `desired_by_url` computation:
skip blank slugs/urls, take a liveness snapshot (45 s freshness, network
allowed) and keep the best-ranked row per target url. -/
def desiredStepChannel (campaign : KickCampaign) (now : Int)
    (net : String → Option (Bool × Int))
    (st : List (String × DesiredRow) × LiveCache) (channel : KickChannel) :
    List (String × DesiredRow) × LiveCache :=
  let slug := pyStrip channel.slug
  if slug = "" then st
  else
    let url := pyStrip (if channel.url ≠ "" then channel.url
      else "https://kick.com/" ++ slug)
    if url = "" then st
    else
      let s := getChannelLiveSnapshot st.2 now net slug 45 true
      let sortKey := channelLiveSortKey s.1.1 s.1.2 slug
      let row : DesiredRow :=
        { campaign := campaign, channel := channel, live := s.1.1,
          viewers := s.1.2, sortKey := sortKey }
      let desired := match dictFind st.1 url with
        | none => dictSet st.1 url row
        | some prev =>
          if keyLtb sortKey prev.sortKey then dictSet st.1 url row else st.1
      (desired, s.2)

/-- The outer (per-campaign) step: apply the game filter and the expiry
check, then walk the campaign's channels. -/
def desiredStepCampaign (mineAll : Bool) (selected : List String) (now : Int)
    (net : String → Option (Bool × Int))
    (st : List (String × DesiredRow) × LiveCache) (campaign : KickCampaign) :
    List (String × DesiredRow) × LiveCache :=
  let gameKey := pyCasefold (pyStrip campaign.game)
  if !mineAll && !(selected.contains gameKey) then st
  else if isCampaignExpired now (some campaign) then st
  else campaign.channels.foldl (desiredStepChannel campaign now net) st

/-- The full `desired_by_url` computation. -/
def buildDesired (campaigns : List KickCampaign) (mineAll : Bool)
    (selected : List String) (now : Int) (net : String → Option (Bool × Int))
    (cache : LiveCache) : List (String × DesiredRow) × LiveCache :=
  campaigns.foldl (desiredStepCampaign mineAll selected now net) ([], cache)

/-- `existing_by_url` read through `.get`: the first queue item with
the given (non-empty) url. -/
def firstExistingByUrl (queue : List QueueItem) (url : String) : Option QueueItem :=
  queue.find? fun i => i.url ≠ "" && i.url = url

/-- The fresh queue item created for an unmatched desired row. -/
def reconFresh (row : DesiredRow) : QueueItem :=
  { url := rowUrl row
    minutes_target := 0
    status := "PENDING"
    campaign_id := some row.campaign.id
    campaign_name := some row.campaign.name
    category_id := row.campaign.category_id
    notes := buildAutoGamesItemNotes row.campaign row.channel row.viewers }

/-- The in-place update applied to a matched existing item: campaign
fields and notes are rewritten, and an EXPIRED status is reset to
PENDING. -/
def reconUpd (existing : QueueItem) (row : DesiredRow) : QueueItem :=
  let upd : QueueItem :=
    { existing with
      campaign_id := some row.campaign.id
      campaign_name := some row.campaign.name
      category_id := row.campaign.category_id
      notes := buildAutoGamesItemNotes row.campaign row.channel row.viewers }
  if upd.status = "EXPIRED" then { upd with status := "PENDING" } else upd

/-- Whether the update changed the compared field tuple (the source's
`after != before`). -/
def reconChanged (existing : QueueItem) (row : DesiredRow) : Bool :=
  decide
    (((reconUpd existing row).campaign_id, (reconUpd existing row).campaign_name,
        (reconUpd existing row).category_id, (reconUpd existing row).notes,
        (reconUpd existing row).status) ≠
      (existing.campaign_id, existing.campaign_name, existing.category_id,
        existing.notes, existing.status))

/-- The per-row reconciliation step of `_auto_queue_selected_games`
(source lines 1928-1971), accumulating the reconciled prefix of the
final queue, `ordered_urls`, and the `added`/`updated` counters.  The
source's `isinstance` guards on the row's campaign/channel always hold
and are omitted. -/
def reconcileStep (queue : List QueueItem)
    (st : List QueueItem × List String × Nat × Nat) (row : DesiredRow) :
    List QueueItem × List String × Nat × Nat :=
  match firstExistingByUrl queue (rowUrl row) with
  | none =>
    (st.1 ++ [reconFresh row], st.2.1 ++ [rowUrl row], st.2.2.1 + 1, st.2.2.2)
  | some existing =>
    (st.1 ++ [reconUpd existing row], st.2.1 ++ [rowUrl row], st.2.2.1,
      if reconChanged existing row then st.2.2.2 + 1 else st.2.2.2)

/-- The item a desired row contributes to the reconciled prefix. -/
def stepItem (queue : List QueueItem) (row : DesiredRow) : QueueItem :=
  match firstExistingByUrl queue (rowUrl row) with
  | none => reconFresh row
  | some existing => reconUpd existing row

def reconcileRows (queue : List QueueItem) (ordered : List DesiredRow) :
    List QueueItem × List String × Nat × Nat :=
  ordered.foldl (reconcileStep queue) ([], [], 0, 0)

/-- `KickMinerApp._auto_queue_selected_games`.  Returns the final
queue, the cache, `ordered_urls` and the `(added, updated, removed)`
counters.  The source assigns `self.queue_items` only when the list
changed, which is value-equal to always returning the final list. -/
def autoQueueCore (campaigns : List KickCampaign) (mineAll : Bool)
    (selected : List String) (queue : List QueueItem) (cache : LiveCache)
    (now : Int) (net : String → Option (Bool × Int)) :
    List QueueItem × LiveCache × List String × Nat × Nat × Nat :=
  let bd := buildDesired campaigns mineAll selected now net cache
  let ordered := (bd.1.map Prod.snd).mergeSort fun a b => keyLeb a.sortKey b.sortKey
  let rr := reconcileRows queue ordered
  let leftovers := queue.filter fun item =>
    !(rr.2.1.contains item.url) && !(isAutoGamesChannelItem item)
  let removed := (queue.filter fun item =>
    !(rr.2.1.contains item.url) && isAutoGamesChannelItem item).length
  (rr.1 ++ leftovers, bd.2, rr.2.1, rr.2.2.1, rr.2.2.2, removed)

def autoQueueSelectedGames (campaigns : List KickCampaign) (prefs : List String)
    (queue : List QueueItem) (cache : LiveCache) (now : Int)
    (net : String → Option (Bool × Int)) :
    List QueueItem × LiveCache × List String × Nat × Nat × Nat :=
  let f := preferredGameFilter prefs
  if campaigns.isEmpty then (queue, cache, [], 0, 0, 0)
  else if !f.1 && f.2.isEmpty then (queue, cache, [], 0, 0, 0)
  else autoQueueCore campaigns f.1 f.2 queue cache now net

/-- `KickMinerApp._pick_preferred_channel_for_campaign`: best live
channel (highest viewers, later ties win) else highest-viewer fallback. -/
def pickPreferredChannelForCampaign (campaign : KickCampaign) (cache : LiveCache)
    (now : Int) (net : String → Option (Bool × Int)) (useNetwork : Bool) :
    (Option KickChannel × Bool × Int) × LiveCache :=
  if campaign.channels.isEmpty then ((none, false, 0), cache)
  else
    let st := campaign.channels.foldl
      (fun (st : Option (KickChannel × Int) × Option (KickChannel × Int) × LiveCache) channel =>
        let (bestLive, fallback, cache) := st
        let ((live, viewers), cache') :=
          getChannelLiveSnapshot cache now net channel.slug 45 useNetwork
        let fallback' := match fallback with
          | none => some (channel, viewers)
          | some (_, fv) => if viewers > fv then some (channel, viewers) else fallback
        let bestLive' := match live with
          | some true =>
            (match bestLive with
              | none => if viewers ≥ -1 then some (channel, viewers) else bestLive
              | some (_, bv) => if viewers ≥ bv then some (channel, viewers) else bestLive)
          | _ => bestLive
        (bestLive', fallback', cache'))
      (none, none, cache)
    match st with
    | (some (c, v), _, cache') => ((some c, true, max 0 v), cache')
    | (none, some (c, v), cache') => ((some c, false, max 0 v), cache')
    | (none, none, cache') => ((none, false, 0), cache')

/-- `KickMinerApp._set_item_channel_for_campaign` (the in-place item
mutation is returned as the updated item). -/
def setItemChannelForCampaign (item : QueueItem) (campaign : Option KickCampaign)
    (cache : LiveCache) (now : Int) (net : String → Option (Bool × Int))
    (useNetwork : Bool) : (QueueItem × Bool × Int) × LiveCache :=
  match campaign with
  | none => ((item, false, 0), cache)
  | some c =>
    let ((preferred, isLive, viewers), cache') :=
      pickPreferredChannelForCampaign c cache now net useNetwork
    match preferred with
    | none => ((item, false, 0), cache')
    | some ch =>
      let item := if item.url ≠ ch.url then { item with url := ch.url } else item
      let item :=
        { item with
          campaign_id := some c.id
          campaign_name := some c.name
          category_id := c.category_id
          notes := "game=" ++ c.game ++ " | auto=" ++ ch.slug ++ " (" ++
            toString viewers ++ " viewers)" }
      ((item, isLive, viewers), cache')

/-- The retry-hint match of `get_next_queue_item` (source line 2119). -/
def matchesHint (hid hname : String) (item : QueueItem) : Bool :=
  (hid ≠ "" && pyStrip (item.campaign_id.getD "") = hid) ||
  (hname ≠ "" && pyLower (pyStrip (item.campaign_name.getD "")) = hname)

/-- The hint-driven ordering phase of `get_next_queue_item` (source
lines 2110-2130): partition hinted items first (the loop's two
accumulators are the two filters, in order); clear the hint when
nothing matches. -/
def selectOrderedItems (hintId hintName : Option String) (items : List QueueItem) :
    List QueueItem × Option String × Option String :=
  let hid := pyStrip (hintId.getD "")
  let hname := pyLower (pyStrip (hintName.getD ""))
  if hid ≠ "" ∨ hname ≠ "" then
    let pref := items.filter (matchesHint hid hname)
    let others := items.filter fun i => !(matchesHint hid hname i)
    if !pref.isEmpty then (pref ++ others, hintId, hintName)
    else (items, none, none)
  else (items, hintId, hintName)

/-- The outcome of the finalization/filter part of one
`get_next_queue_item` loop iteration (source lines 2133-2153): the item
is skipped with a terminal status, skipped by the specific-games
filter, or survives as a candidate (with its resolved campaign). -/
inductive ItemPass where
  | skip (item : QueueItem) : ItemPass
  | skipFilter (item : QueueItem) : ItemPass
  | candidate (item : QueueItem) (campaign : Option KickCampaign) : ItemPass

/-- Whether a pass outcome is a surviving candidate. -/
def ItemPass.isCandidate : ItemPass → Bool
  | .candidate _ _ => true
  | _ => false

/-- The finalization pass applied to a single item by the
`get_next_queue_item` loop: mark target-reached and fully-claimed items
FINISHED, expired-campaign items EXPIRED, reset STOPPED to PENDING, and
apply the specific-games filter.  These decisions read only the
campaign/progress snapshots and the item itself (never the liveness
cache). -/
def itemPass (campaigns : List KickCampaign) (progress : List KickProgressCampaign)
    (mineAll : Bool) (selected : List String) (now : Int) (item : QueueItem) :
    ItemPass :=
  if item.minutes_target > 0 && item.done then .skip { item with status := "FINISHED" }
  else
    let progressCampaign := resolveItemProgressCampaign progress item
    let item := if isProgressCampaignFinished progressCampaign then
        { item with status := "FINISHED" } else item
    if item.status = "FINISHED" ∨ item.status = "EXPIRED" then .skip item
    else
      let item := if item.status = "STOPPED" then { item with status := "PENDING" } else item
      let campaign := resolveQueueItemCampaign campaigns item
      if isCampaignExpired now campaign then
        .skip { item with status := "EXPIRED", notes := "campaign expired" }
      else
        let autoFilter := !mineAll && !selected.isEmpty
        let skipByFilter :=
          autoFilter &&
          (optStrTruthy item.campaign_id || optStrTruthy item.campaign_name) &&
          (match campaign with
            | some c =>
              let gameName := pyCasefold (pyStrip c.game)
              gameName ≠ "" && !(selected.contains gameName)
            | none => false)
        if skipByFilter then .skipFilter item
        else .candidate item campaign

/-- The candidate loop of `get_next_queue_item` (source lines
2131-2168): thread the liveness cache, return the first live candidate,
else track the highest-viewer fallback.  `acc` collects the already
processed (possibly finalized/updated) items in reverse. -/
def runNextLoop (campaigns : List KickCampaign) (progress : List KickProgressCampaign)
    (mineAll : Bool) (selected : List String) (now : Int)
    (net : String → Option (Bool × Int)) :
    List QueueItem → LiveCache → Option (QueueItem × Int) → List QueueItem →
    Option QueueItem × List QueueItem × LiveCache
  | [], cache, fb, acc => (fb.map Prod.fst, acc.reverse, cache)
  | item :: rest, cache, fb, acc =>
    match itemPass campaigns progress mineAll selected now item with
    | .skip item' =>
      runNextLoop campaigns progress mineAll selected now net rest cache fb (item' :: acc)
    | .skipFilter item' =>
      runNextLoop campaigns progress mineAll selected now net rest cache fb (item' :: acc)
    | .candidate item' campaign =>
      let next :=
        if isAutoGamesChannelItem item' then
          let s := getChannelLiveSnapshot cache now net item'.slug 30 true
          ((item', (match s.1.1 with | some true => true | _ => false), s.1.2), s.2)
        else setItemChannelForCampaign item' campaign cache now net true
      if next.1.2.1 then (some next.1.1, acc.reverse ++ next.1.1 :: rest, next.2)
      else
        let fbViewers : Int := match fb with
          | some (_, v) => v
          | none => -1
        let fb' := if fb.isNone || next.1.2.2 > fbViewers then
          some (next.1.1, next.1.2.2) else fb
        runNextLoop campaigns progress mineAll selected now net rest next.2 fb'
          (next.1.1 :: acc)

/-- `KickMinerApp.get_next_queue_item`: ordering by retry hint, then
the candidate loop.  Returns the chosen item, the updated queue, the
updated cache and the (possibly cleared) retry hints. -/
def getNextQueueItem (campaigns : List KickCampaign)
    (progress : List KickProgressCampaign) (prefs : List String)
    (hintId hintName : Option String) (queue : List QueueItem) (cache : LiveCache)
    (now : Int) (net : String → Option (Bool × Int)) :
    Option QueueItem × List QueueItem × LiveCache × Option String × Option String :=
  let f := preferredGameFilter prefs
  let sel := selectOrderedItems hintId hintName queue
  let r := runNextLoop campaigns progress f.1 f.2 now net sel.1 cache none []
  (r.1, r.2.1, r.2.2, sel.2.1, sel.2.2)

end KickDrops

namespace KickDrops

/-- Python `str.upper()`. -/
def pyUpper (s : String) : String := String.mk (s.data.map Char.toUpper)

/-- The keyword changes a `post_update_item` message can carry. -/
structure UpdateChanges where
  status : Option String := none
  notes : Option String := none
deriving DecidableEq, Repr

/-- The messages the rotation worker posts into the UI queue
(`_dispatch` targets used by the run loop; log messages carry no
state). -/
inductive WorkerMsg where
  | updateItem (url : String) (changes : UpdateChanges)
  | incrementElapsed (url : String) (seconds : Int)
  | setRetryHint (cid cname : Option String)
  | rotateItem (url : String)
  | log (text : String)
deriving DecidableEq, Repr

/-- `setattr` application of an update message's changes, followed by
the done-override of `_ui_update_item` (source lines 1364-1367). -/
def applyChanges (item : QueueItem) (changes : UpdateChanges) : QueueItem :=
  let item := match changes.status with
    | some s => { item with status := s }
    | none => item
  let item := match changes.notes with
    | some n => { item with notes := n }
    | none => item
  if item.done && item.status ≠ "FINISHED" then { item with status := "FINISHED" }
  else item

/-- `KickMinerApp._ui_update_item`: mutate the first queue item with
the url (via `_find_item_by_url`), apply the done-override, and clear
the retry hint when the item became FINISHED/EXPIRED and matches it
(source lines 1360-1376). -/
def uiUpdateItem : List QueueItem → Option String → Option String → String →
    UpdateChanges → List QueueItem × Option String × Option String
  | [], hid, hname, _, _ => ([], hid, hname)
  | i :: rest, hid, hname, url, changes =>
    if i.url = url then
      let i' := applyChanges i changes
      let hintHit :=
        (i'.status = "FINISHED" ∨ i'.status = "EXPIRED") ∧
        ((hid.getD "" ≠ "" ∧ i'.campaign_id.getD "" = hid.getD "") ∨
         (hname.getD "" ≠ "" ∧ pyLower (pyStrip (i'.campaign_name.getD "")) = hname.getD ""))
      if hintHit then (i' :: rest, none, none) else (i' :: rest, hid, hname)
    else
      let (rest', hid', hname') := uiUpdateItem rest hid hname url changes
      (i :: rest', hid', hname')

/-- `KickMinerApp._ui_increment_elapsed` (source lines 1378-1385). -/
def uiIncrementElapsed : List QueueItem → String → Int → List QueueItem
  | [], _, _ => []
  | i :: rest, url, seconds =>
    if i.url = url then
      let i' := { i with elapsed_seconds := i.elapsed_seconds + max 1 seconds }
      (if i'.done then { i' with status := "FINISHED" } else i') :: rest
    else i :: uiIncrementElapsed rest url seconds

/-- `list.index(x)`: index of the first value-equal element. -/
def listIndexOf (item : QueueItem) : List QueueItem → Option Nat
  | [] => none
  | i :: rest => if i = item then some 0 else (listIndexOf item rest).map (· + 1)

/-- `KickMinerApp._ui_rotate_item` (source lines 1387-1397):
`list.index` finds the first value-equal element; items already at the
tail stay put. -/
def uiRotateItem (queue : List QueueItem) (url : String) : List QueueItem :=
  match queue.find? (fun i => i.url = url) with
  | none => queue
  | some item =>
    match listIndexOf item queue with
    | none => queue
    | some idx =>
      if idx < queue.length - 1 then queue.eraseIdx idx ++ [item]
      else queue

/-- `KickMinerApp._ui_set_retry_campaign_hint` (source lines
1399-1401). -/
def uiSetRetryCampaignHint (cid cname : Option String) :
    Option String × Option String :=
  (let s := pyStrip (cid.getD "")
   if s = "" then none else some s,
   let t := pyLower (pyStrip (cname.getD ""))
   if t = "" then none else some t)

/-- Draining one worker message on the UI side (queue, hint id, hint
name). -/
def applyWorkerMsg (st : List QueueItem × Option String × Option String)
    (m : WorkerMsg) : List QueueItem × Option String × Option String :=
  let (queue, hid, hname) := st
  match m with
  | .updateItem url changes => uiUpdateItem queue hid hname url changes
  | .incrementElapsed url seconds => (uiIncrementElapsed queue url seconds, hid, hname)
  | .setRetryHint cid cname =>
    let (hid', hname') := uiSetRetryCampaignHint cid cname
    (queue, hid', hname')
  | .rotateItem url => (uiRotateItem queue url, hid, hname)
  | .log _ => st

/-- Draining a message sequence in order (the UI queue is FIFO). -/
def applyWorkerMsgs (st : List QueueItem × Option String × Option String)
    (msgs : List WorkerMsg) : List QueueItem × Option String × Option String :=
  msgs.foldl applyWorkerMsg st

/-- The parsed result of `channel_live_status` inside the watch loop. -/
structure LiveInfo where
  live : Bool
  category_id : Option Int
  viewer_count : Int
deriving DecidableEq, Repr

/-- `KickMinerApp._consume_force_channel_switch` (source lines
1303-1311). -/
def consumeForceChannelSwitch (forceSet : List String) (url : String) :
    Bool × List String :=
  let target := pyStrip url
  if target = "" then (false, forceSet)
  else if forceSet.contains target then (true, forceSet.erase target)
  else (false, forceSet)

/-- One iteration of the watch loop of `QueueWorker._process_item`
(source lines 339-387), plus the loop-exit epilogue (lines 388-389)
when the stop flag is set.  `item` is the current value of the watched
queue item (the worker reads the fields the UI thread maintains);
`liveNet` is the `channel_live_status` oracle for this tick (`.error`
carries `str(exc)`).  Returns the `_process_item` result when the loop
exits (`none` = keep looping), the force-switch set, the posted
messages in order, and the updated poll/tick deadlines.  Browser-only
side effects (page tweaks, the auto-claim DOM clicks) touch no
scheduler state and are not modelled. -/
def watchIter (stop : Bool) (forceSet : List String) (url slug : String)
    (item : QueueItem) (now nextPoll nextTick : Int) (pollEvery tickSeconds : Int)
    (liveNet : Except String LiveInfo) (autoClaim : Bool) :
    Option String × List String × List WorkerMsg × Int × Int :=
  if stop then
    (some "stopped", forceSet,
      [.updateItem url { status := some "STOPPED", notes := some "detenido" }],
      nextPoll, nextTick)
  else
    let (consumed, forceSet') := consumeForceChannelSwitch forceSet url
    if consumed then
      (some "retry", forceSet',
        [.updateItem url { status := some "RETRY", notes := some "cambio manual de canal" },
         .log ("Cambio manual solicitado: " ++ slug)],
        nextPoll, nextTick)
    else
      let statusUpper := pyUpper item.status
      if item.done || statusUpper = "FINISHED" || statusUpper = "EXPIRED" then
        if statusUpper = "EXPIRED" then
          (some "finished", forceSet',
            [.updateItem url { status := some "EXPIRED", notes := some "campaña caducada" }],
            nextPoll, nextTick)
        else
          (some "finished", forceSet',
            [.updateItem url { status := some "FINISHED", notes := some "drops completados" }] ++
              (if autoClaim then [.log "Auto-claim"] else []),
            nextPoll, nextTick)
      else
        let pollPart :=
          if now ≥ nextPoll then
            let nextPoll' := now + pollEvery
            match liveNet with
            | .error exc =>
              some ((some "retry",
                [WorkerMsg.updateItem url
                  { status := some "RETRY", notes := some ("error live check: " ++ exc) },
                 WorkerMsg.log ("Live check error (" ++ slug ++ "): " ++ exc)]), nextPoll')
            | .ok info =>
              if !info.live then
                some ((some "retry",
                  [WorkerMsg.updateItem url { status := some "RETRY", notes := some "offline" },
                   WorkerMsg.log ("Canal offline: " ++ slug)]), nextPoll')
              else
                let mismatch := match item.category_id, info.category_id with
                  | some ci, some lc => ci ≠ 0 && lc ≠ 0 && lc ≠ ci
                  | _, _ => false
                if mismatch then
                  some ((some "retry",
                    [WorkerMsg.updateItem url
                      { status := some "WRONG_CATEGORY",
                        notes := some ("cat " ++ toString (info.category_id.getD 0) ++
                          " != " ++ toString (item.category_id.getD 0)) },
                     WorkerMsg.log "Canal en categoría distinta"]), nextPoll')
                else
                  some ((none,
                    [WorkerMsg.updateItem url
                      { status := some "LIVE",
                        notes := some ("viewers=" ++ toString info.viewer_count) }]), nextPoll')
          else none
        match pollPart with
        | some ((some result, msgs), nextPoll') =>
          (some result, forceSet', msgs, nextPoll', nextTick)
        | some ((none, msgs), nextPoll') =>
          if now ≥ nextTick then
            (none, forceSet',
              msgs ++ [.incrementElapsed url tickSeconds,
                .updateItem url { status := some "LIVE" }],
              nextPoll', now + tickSeconds)
          else (none, forceSet', msgs, nextPoll', nextTick)
        | none =>
          if now ≥ nextTick then
            (none, forceSet',
              [.incrementElapsed url tickSeconds,
                .updateItem url { status := some "LIVE" }],
              nextPoll, now + tickSeconds)
          else (none, forceSet', [], nextPoll, nextTick)

/-- The `_run_loop` follow-up when `_process_item` returns `"retry"`
(source lines 313-315): bias the retry hint to the interrupted
campaign, then rotate the item to the tail. -/
def workerRetryAftermath (item : QueueItem) : List WorkerMsg :=
  [.setRetryHint item.campaign_id item.campaign_name, .rotateItem item.url]

end KickDrops

namespace KickDrops

/-- A payload value on which `x or \x7b\x7d` followed by `.get` cannot
raise: falsy, or a dict. -/
def jsonDictOrFalsy (v : Json) : Bool :=
  !(pyTruthy v) ||
    (match v with
      | .obj _ => true
      | _ => false)

/-- A payload value on which `for x in (v or [])` cannot raise: falsy,
or iterable (list, string, dict). -/
def jsonIterable (v : Json) : Bool :=
  !(pyTruthy v) ||
    (match v with
      | .arr _ => true
      | .str _ => true
      | .obj _ => true
      | _ => false)

/-- Well-typedness of the nested fields of one campaign record: the
fields on which `KickCampaign.from_api` performs iteration or
attribute access are of the shapes the code anticipates. -/
def campaignDictOk (d : List (String × Json)) : Bool :=
  jsonIterable (dictGet d "rewards") &&
  jsonIterable (dictGet d "channels") &&
  jsonDictOrFalsy (dictGet d "category") &&
  (match pyIterElems (dictGet d "channels") with
    | .ok elems => (elems.filterMap Json.asDict).all
        (fun ch => jsonDictOrFalsy (dictGet ch "user"))
    | .error _ => true)

/-- A concrete auto-marked queue item for exercising the discovery
reconciliation. -/
def cexC3AutoItem : QueueItem :=
  { url := "https://kick.com/alpha"
    notes := AUTO_GAMES_CHANNEL_SOURCE }

/-- A concrete manually added queue item (no discovery marker). -/
def cexC3ManualItem : QueueItem :=
  { url := "https://kick.com/beta" }

/-- A concrete campaign with one channel, for the C3 witness run. -/
def cexC3Campaign : KickCampaign :=
  { id := "c1"
    name := "Camp"
    game := "Rust"
    channels := [{ slug := "alpha"
                   username := "alpha"
                   url := "https://kick.com/alpha" }] }

/-- A channel whose url carries an embedded space. -/
def cexC4ChannelA : KickChannel :=
  { slug := "x"
    username := "x"
    url := "https://kick.com/ x" }

/-- A channel with no url and a leading space in its slug: its desired
key differs from channel A's, but its recomputed queue url collides. -/
def cexC4ChannelB : KickChannel :=
  { slug := " x"
    username := "x"
    url := "" }

/-- A campaign whose two channels produce distinct desired keys with
the same recomputed queue url. -/
def cexC4Campaign : KickCampaign :=
  { id := "c4"
    name := "Camp4"
    game := "Rust"
    channels := [cexC4ChannelA, cexC4ChannelB] }

end KickDrops

namespace KickDrops

theorem dropWhile_head_not {α : Type} (p : α → Bool) :
    ∀ (l : List α) {c : α} {t : List α}, l.dropWhile p = c :: t → p c = false := by
  intro l
  induction l with
  | nil => intro c t h; simp at h
  | cons a l ih =>
    intro c t h
    rw [List.dropWhile_cons] at h
    split at h
    · exact ih h
    · next hp =>
      cases h
      simpa using hp

theorem dropWs_idem (l : List Char) : dropWs (dropWs l) = dropWs l := by
  cases h : dropWs l with
  | nil => simp [dropWs]
  | cons c t =>
    have hc : c.isWhitespace = false := dropWhile_head_not _ l h
    unfold dropWs
    rw [List.dropWhile_cons_of_neg (by simp [hc])]

theorem dropWs_of_strip (l : List Char) :
    dropWs ((dropWs ((dropWs l).reverse)).reverse) = (dropWs ((dropWs l).reverse)).reverse := by
  cases h : dropWs l with
  | nil => simp [dropWs]
  | cons c t =>
    have hc : c.isWhitespace = false := dropWhile_head_not _ l h
    rw [List.reverse_cons]
    unfold dropWs
    rw [List.dropWhile_append]
    split
    · simp [hc]
    · rw [List.reverse_append, List.reverse_cons, List.reverse_nil, List.nil_append,
        List.cons_append, List.nil_append,
        List.dropWhile_cons_of_neg (by simp [hc])]

theorem pyStrip_idem (s : String) : pyStrip (pyStrip s) = pyStrip s := by
  unfold pyStrip
  congr 1
  show (dropWs ((dropWs ((dropWs ((dropWs s.data).reverse)).reverse)).reverse)).reverse =
    (dropWs ((dropWs s.data).reverse)).reverse
  rw [dropWs_of_strip s.data, List.reverse_reverse, dropWs_idem]

theorem keyLtb_iff (a b : Int × Int × String) :
    keyLtb a b = true ↔
      (a.1 < b.1 ∨ (a.1 = b.1 ∧ (a.2.1 < b.2.1 ∨ (a.2.1 = b.2.1 ∧ strLtb a.2.2 b.2.2 = true)))) := by
  simp [keyLtb]

end KickDrops

namespace KickDrops

theorem charListLtb_irrefl : ∀ l : List Char, charListLtb l l = false := by
  intro l
  induction l with
  | nil => rfl
  | cons a as ih =>
    simp only [charListLtb]
    rw [if_neg (lt_irrefl a), if_neg (lt_irrefl a)]
    exact ih

theorem charListLtb_trans :
    ∀ (a b c : List Char), charListLtb a b = true → charListLtb b c = true →
      charListLtb a c = true := by
  intro a
  induction a with
  | nil =>
    intro b c hab hbc
    cases b with
    | nil => simp [charListLtb] at hab
    | cons y ys =>
      cases c with
      | nil => simp [charListLtb] at hbc
      | cons z zs => rfl
  | cons x xs ih =>
    intro b c hab hbc
    cases b with
    | nil => simp [charListLtb] at hab
    | cons y ys =>
      cases c with
      | nil => simp [charListLtb] at hbc
      | cons z zs =>
        simp only [charListLtb] at hab hbc ⊢
        by_cases h1 : x < y
        · by_cases h2 : y < z
          · rw [if_pos (lt_trans h1 h2)]
          · rw [if_neg h2] at hbc
            by_cases h3 : z < y
            · rw [if_pos h3] at hbc
              exact absurd hbc (by simp)
            · rw [if_neg h3] at hbc
              have hyz : y = z := le_antisymm (not_lt.mp h3) (not_lt.mp h2)
              rw [if_pos (hyz ▸ h1)]
        · rw [if_neg h1] at hab
          by_cases h4 : y < x
          · rw [if_pos h4] at hab
            exact absurd hab (by simp)
          · rw [if_neg h4] at hab
            have hxy : x = y := le_antisymm (not_lt.mp h4) (not_lt.mp h1)
            subst hxy
            by_cases h2 : x < z
            · rw [if_pos h2]
            · rw [if_neg h2] at hbc ⊢
              by_cases h3 : z < x
              · rw [if_pos h3] at hbc
                exact absurd hbc (by simp)
              · rw [if_neg h3] at hbc ⊢
                exact ih ys zs hab hbc

theorem charListLtb_trichotomy :
    ∀ (a b : List Char), charListLtb a b = true ∨ a = b ∨ charListLtb b a = true := by
  intro a
  induction a with
  | nil =>
    intro b
    cases b with
    | nil => exact Or.inr (Or.inl rfl)
    | cons y ys => exact Or.inl rfl
  | cons x xs ih =>
    intro b
    cases b with
    | nil => exact Or.inr (Or.inr rfl)
    | cons y ys =>
      rcases lt_trichotomy x y with h | h | h
      · left
        simp only [charListLtb]
        rw [if_pos h]
      · subst h
        rcases ih ys with h' | h' | h'
        · left
          simp only [charListLtb]
          rw [if_neg (lt_irrefl x), if_neg (lt_irrefl x)]
          exact h'
        · exact Or.inr (Or.inl (by rw [h']))
        · right
          right
          simp only [charListLtb]
          rw [if_neg (lt_irrefl x), if_neg (lt_irrefl x)]
          exact h'
      · right
        right
        simp only [charListLtb]
        rw [if_pos h]

theorem strLtb_trans {a b c : String} (h1 : strLtb a b = true)
    (h2 : strLtb b c = true) : strLtb a c = true :=
  charListLtb_trans _ _ _ h1 h2

theorem strLtb_irrefl (a : String) : strLtb a a = false :=
  charListLtb_irrefl _

theorem strLtb_trichotomy (a b : String) :
    strLtb a b = true ∨ a = b ∨ strLtb b a = true := by
  rcases charListLtb_trichotomy a.data b.data with h | h | h
  · exact Or.inl h
  · refine Or.inr (Or.inl ?_)
    cases a
    cases b
    exact congrArg String.mk (by simpa using h)
  · exact Or.inr (Or.inr h)

theorem keyLtb_trans {a b c : Int × Int × String}
    (h1 : keyLtb a b = true) (h2 : keyLtb b c = true) : keyLtb a c = true := by
  rw [keyLtb_iff] at h1 h2 ⊢
  rcases h1 with h1 | ⟨e1, h1⟩
  · rcases h2 with h2 | ⟨e2, _⟩
    · exact Or.inl (lt_trans h1 h2)
    · exact Or.inl (e2 ▸ h1)
  · rcases h2 with h2 | ⟨e2, h2⟩
    · exact Or.inl (e1 ▸ h2)
    · refine Or.inr ⟨e1.trans e2, ?_⟩
      rcases h1 with h1 | ⟨f1, h1⟩
      · rcases h2 with h2 | ⟨f2, _⟩
        · exact Or.inl (lt_trans h1 h2)
        · exact Or.inl (f2 ▸ h1)
      · rcases h2 with h2 | ⟨f2, h2⟩
        · exact Or.inl (f1 ▸ h2)
        · exact Or.inr ⟨f1.trans f2, strLtb_trans h1 h2⟩

theorem keyLtb_irrefl (a : Int × Int × String) : keyLtb a a = false := by
  have h : ¬ (keyLtb a a = true) := by
    rw [keyLtb_iff]
    simp [strLtb_irrefl]
  simpa using h

theorem keyLtb_trichotomy (a b : Int × Int × String) :
    keyLtb a b = true ∨ a = b ∨ keyLtb b a = true := by
  obtain ⟨a1, a2, a3⟩ := a
  obtain ⟨b1, b2, b3⟩ := b
  rcases lt_trichotomy a1 b1 with h | h | h
  · exact Or.inl ((keyLtb_iff _ _).mpr (Or.inl h))
  · subst h
    rcases lt_trichotomy a2 b2 with h' | h' | h'
    · exact Or.inl ((keyLtb_iff _ _).mpr (Or.inr ⟨rfl, Or.inl h'⟩))
    · subst h'
      rcases strLtb_trichotomy a3 b3 with h'' | h'' | h''
      · exact Or.inl ((keyLtb_iff _ _).mpr (Or.inr ⟨rfl, Or.inr ⟨rfl, h''⟩⟩))
      · subst h''
        exact Or.inr (Or.inl rfl)
      · exact Or.inr (Or.inr ((keyLtb_iff _ _).mpr (Or.inr ⟨rfl, Or.inr ⟨rfl, h''⟩⟩)))
    · exact Or.inr (Or.inr ((keyLtb_iff _ _).mpr (Or.inr ⟨rfl, Or.inl h'⟩)))
  · exact Or.inr (Or.inr ((keyLtb_iff _ _).mpr (Or.inl h)))

theorem channelLiveSortKey_eq (live : Option Bool) (v : Int) (s : String) :
    channelLiveSortKey live v s =
      ((match live with
        | some true => (0 : Int)
        | some false => 1
        | none => 2), -(max 0 v), pyCasefold s) := rfl

/-- C2 (amended): the liveness-biased sort key is a total strict order
(transitive, irreflexive, trichotomous on key triples) in which every
live channel ranks before every known-offline channel and every
known-offline channel ranks before every unknown-liveness channel;
within equal liveness rank, non-negative viewer counts rank strictly
descending, with ties broken by ascending casefolded slug. -/
theorem claim_C2_sort_key_order :
    (∀ a b c : Int × Int × String, keyLtb a b = true → keyLtb b c = true → keyLtb a c = true) ∧
    (∀ a : Int × Int × String, keyLtb a a = false) ∧
    (∀ a b : Int × Int × String, keyLtb a b = true ∨ a = b ∨ keyLtb b a = true) ∧
    (∀ v₁ s₁ v₂ s₂, keyLtb (channelLiveSortKey (some true) v₁ s₁)
      (channelLiveSortKey (some false) v₂ s₂) = true) ∧
    (∀ v₁ s₁ v₂ s₂, keyLtb (channelLiveSortKey (some false) v₁ s₁)
      (channelLiveSortKey none v₂ s₂) = true) ∧
    (∀ (l : Option Bool) v₁ v₂ s₁ s₂, 0 ≤ v₂ → v₂ < v₁ →
      keyLtb (channelLiveSortKey l v₁ s₁) (channelLiveSortKey l v₂ s₂) = true) ∧
    (∀ (l : Option Bool) v s₁ s₂, strLtb (pyCasefold s₁) (pyCasefold s₂) = true →
      keyLtb (channelLiveSortKey l v s₁) (channelLiveSortKey l v s₂) = true) := by
  refine ⟨fun a b c => keyLtb_trans, keyLtb_irrefl, keyLtb_trichotomy, ?_, ?_, ?_, ?_⟩
  · intro v₁ s₁ v₂ s₂
    rw [keyLtb_iff, channelLiveSortKey_eq, channelLiveSortKey_eq]
    exact Or.inl (by norm_num)
  · intro v₁ s₁ v₂ s₂
    rw [keyLtb_iff, channelLiveSortKey_eq, channelLiveSortKey_eq]
    exact Or.inl (by norm_num)
  · intro l v₁ v₂ s₁ s₂ h0 hlt
    have e2 : max 0 v₂ = v₂ := max_eq_right h0
    have e1 : max 0 v₁ = v₁ := max_eq_right (le_of_lt (lt_of_le_of_lt h0 hlt))
    rw [keyLtb_iff, channelLiveSortKey_eq, channelLiveSortKey_eq]
    refine Or.inr ⟨rfl, Or.inl ?_⟩
    simp only [e1, e2]
    omega
  · intro l v s₁ s₂ h
    rw [keyLtb_iff, channelLiveSortKey_eq, channelLiveSortKey_eq]
    exact Or.inr ⟨rfl, Or.inr ⟨rfl, h⟩⟩

/-- C2 counterexample: the claim orders unknown-liveness channels
before known-offline channels, but the code ranks a known-offline
channel (rank 1) before an unknown-liveness one (rank 2). -/
theorem claim_C2_counterexample :
    keyLtb (channelLiveSortKey none 0 "a") (channelLiveSortKey (some false) 0 "a") = false ∧
    keyLtb (channelLiveSortKey (some false) 0 "a") (channelLiveSortKey none 0 "a") = true := by
  constructor <;> rfl

/-- C2 witness: the amended theorem applied at concrete keys. -/
theorem claim_C2_witness :
    keyLtb (channelLiveSortKey (some true) 7 "a") (channelLiveSortKey (some true) 3 "b") = true :=
  claim_C2_sort_key_order.2.2.2.2.2.1 (some true) 7 3 "a" "b" (by norm_num) (by norm_num)

end KickDrops

namespace KickDrops

theorem cleanPreferredGames_mem :
    ∀ (values seen : List String) (g : String),
      g ∈ cleanPreferredGames values seen → g ≠ "" ∧ pyStrip g = g := by
  intro values
  induction values with
  | nil => intro seen g h; simp [cleanPreferredGames] at h
  | cons raw rest ih =>
    intro seen g h
    simp only [cleanPreferredGames] at h
    by_cases h1 : pyStrip raw = ""
    · rw [if_pos h1] at h
      exact ih _ _ h
    · rw [if_neg h1] at h
      by_cases h2 : pyCasefold (pyStrip raw) ∈ seen
      · rw [if_pos h2] at h
        exact ih _ _ h
      · rw [if_neg h2] at h
        rcases List.mem_cons.mp h with rfl | h
        · exact ⟨h1, pyStrip_idem raw⟩
        · exact ih _ _ h

theorem cleanPreferredGames_nodup :
    ∀ (values seen : List String),
      (∀ k ∈ seen, k ∉ (cleanPreferredGames values seen).map pyCasefold) ∧
      ((cleanPreferredGames values seen).map pyCasefold).Nodup := by
  intro values
  induction values with
  | nil => intro seen; simp [cleanPreferredGames]
  | cons raw rest ih =>
    intro seen
    simp only [cleanPreferredGames]
    by_cases h1 : pyStrip raw = ""
    · rw [if_pos h1]
      exact ih seen
    · rw [if_neg h1]
      by_cases h2 : pyCasefold (pyStrip raw) ∈ seen
      · rw [if_pos h2]
        exact ih seen
      · rw [if_neg h2]
        obtain ⟨ihdisj, ihnodup⟩ := ih (pyCasefold (pyStrip raw) :: seen)
        refine ⟨?_, ?_⟩
        · intro k hk
          simp only [List.map_cons, List.mem_cons]
          rintro (rfl | hmem)
          · exact h2 hk
          · exact ihdisj k (List.mem_cons.mpr (Or.inr hk)) hmem
        · simp only [List.map_cons]
          exact List.nodup_cons.mpr
            ⟨ihdisj _ (List.mem_cons.mpr (Or.inl rfl)), ihnodup⟩

theorem cleanPreferredGames_of_all_blank :
    ∀ (values seen : List String), (∀ v ∈ values, pyStrip v = "") →
      cleanPreferredGames values seen = [] := by
  intro values
  induction values with
  | nil => intro seen _; rfl
  | cons raw rest ih =>
    intro seen hall
    simp only [cleanPreferredGames]
    rw [if_pos (hall raw (List.mem_cons.mpr (Or.inl rfl)))]
    exact ih seen fun v hv => hall v (List.mem_cons.mpr (Or.inr hv))

theorem normalizePreferredGames_spec (values : List String) :
    normalizePreferredGames values = [ALL_GAMES_TOKEN] ∨
      (normalizePreferredGames values ≠ [] ∧
       ALL_GAMES_TOKEN ∉ normalizePreferredGames values ∧
       ((normalizePreferredGames values).map pyCasefold).Nodup ∧
       (normalizePreferredGames values).Pairwise (fun a b => pyCasefold a ≤ pyCasefold b) ∧
       ∀ g ∈ normalizePreferredGames values, g ≠ "" ∧ pyStrip g = g) := by
  by_cases ha : (cleanPreferredGames values []).any (fun g => g = ALL_GAMES_TOKEN)
  · left
    simp [normalizePreferredGames, ha]
  · by_cases hb : cleanPreferredGames values [] = []
    · left
      simp [normalizePreferredGames, ha, hb]
    · right
      have hN : normalizePreferredGames values =
          (cleanPreferredGames values []).mergeSort
            (fun a b => pyCasefold a ≤ pyCasefold b) := by
        simp only [normalizePreferredGames]
        rw [if_neg ha, if_pos (by simp [hb])]
      have hperm := List.mergeSort_perm (cleanPreferredGames values [])
        (fun a b => pyCasefold a ≤ pyCasefold b)
      have hnotok : ∀ g ∈ cleanPreferredGames values [], g ≠ ALL_GAMES_TOKEN := by
        intro g hg
        intro hEq
        exact (List.any_eq_false.mp (Bool.eq_false_iff.mpr ha) g hg) (by simp [hEq])
      refine ⟨?_, ?_, ?_, ?_, ?_⟩
      · rw [hN]
        intro hnil
        rw [hnil] at hperm
        exact hb hperm.nil_eq.symm
      · rw [hN]
        intro hmem
        exact hnotok _ (List.mem_mergeSort.mp hmem) rfl
      · rw [hN]
        refine List.Nodup.perm ?_ (List.Perm.map pyCasefold hperm).symm
        exact (cleanPreferredGames_nodup values []).2
      · rw [hN]
        have hsorted := @List.sorted_mergeSort String
          (fun a b => decide (pyCasefold a ≤ pyCasefold b))
          (fun a b c hab hbc => by
            simp only [decide_eq_true_eq] at *
            exact le_trans hab hbc)
          (fun a b => by
            simp only [Bool.or_eq_true, decide_eq_true_eq]
            exact le_total _ _)
          (cleanPreferredGames values [])
        exact hsorted.imp (by simp)
      · rw [hN]
        intro g hg
        exact cleanPreferredGames_mem values [] g (List.mem_mergeSort.mp hg)

theorem preferredGameFilter_ne_nil (values : List String)
    (hmine : (preferredGameFilter values).1 = false) :
    (preferredGameFilter values).2 ≠ [] := by
  have htok : ALL_GAMES_TOKEN ∉ normalizePreferredGames values := by
    intro hmem
    have hcont : (normalizePreferredGames values).contains ALL_GAMES_TOKEN = true :=
      List.elem_eq_true_of_mem hmem
    rw [show (preferredGameFilter values).1 =
      (normalizePreferredGames values).contains ALL_GAMES_TOKEN from rfl] at hmine
    rw [hmine] at hcont
    exact Bool.false_ne_true hcont
  rcases normalizePreferredGames_spec values with hcase | ⟨hne, _, _, _, hmem⟩
  · exact absurd (hcase ▸ List.mem_cons.mpr (Or.inl rfl)) htok
  · obtain ⟨g, t, hgt⟩ := List.exists_cons_of_ne_nil hne
    have hg : g ∈ normalizePreferredGames values := hgt ▸ List.mem_cons.mpr (Or.inl rfl)
    obtain ⟨hgne, hgstrip⟩ := hmem g hg
    have hfil : g ∈ (normalizePreferredGames values).filter
        (fun g => g ≠ ALL_GAMES_TOKEN ∧ pyStrip g ≠ "") := by
      refine List.mem_filter.mpr ⟨hg, ?_⟩
      have : g ≠ ALL_GAMES_TOKEN := fun hEq => htok (hEq ▸ hg)
      simp [this, hgstrip, hgne]
    have : pyCasefold (pyStrip g) ∈ (preferredGameFilter values).2 :=
      List.mem_map_of_mem _ hfil
    exact List.ne_nil_of_mem this

/-- C10: normalizing the preferred-games selection yields either
exactly the all-games token or a non-empty, case-insensitively
deduplicated, casefold-sorted list of stripped non-empty specific game
names; an all-blank (or empty) selection normalizes to the token; and
the derived filter never yields `(mine_all = false, selected = ∅)`. -/
theorem claim_C10_normalize_invariant (values : List String) :
    (normalizePreferredGames values = [ALL_GAMES_TOKEN] ∨
      (normalizePreferredGames values ≠ [] ∧
       ALL_GAMES_TOKEN ∉ normalizePreferredGames values ∧
       ((normalizePreferredGames values).map pyCasefold).Nodup ∧
       (normalizePreferredGames values).Pairwise (fun a b => pyCasefold a ≤ pyCasefold b) ∧
       ∀ g ∈ normalizePreferredGames values, g ≠ "" ∧ pyStrip g = g)) ∧
    ((∀ v ∈ values, pyStrip v = "") → normalizePreferredGames values = [ALL_GAMES_TOKEN]) ∧
    ((preferredGameFilter values).1 = false → (preferredGameFilter values).2 ≠ []) := by
  refine ⟨normalizePreferredGames_spec values, ?_, preferredGameFilter_ne_nil values⟩
  intro hall
  have hclean := cleanPreferredGames_of_all_blank values [] hall
  simp [normalizePreferredGames, hclean]

unseal List.merge List.mergeSort in
/-- C10 witness: a whitespace-only selection normalizes to the token,
and a specific selection yields a non-empty selected set. -/
theorem claim_C10_witness :
    normalizePreferredGames ["  "] = [ALL_GAMES_TOKEN] ∧
    (preferredGameFilter ["Valorant"]).2 ≠ [] :=
  ⟨(claim_C10_normalize_invariant ["  "]).2.1 (by decide),
   (claim_C10_normalize_invariant ["Valorant"]).2.2 (by decide)⟩

/-- C6: with no sufficiently fresh cache entry, network use enabled and
a failing network query, the lookup returns the previously cached
`(live, viewers)` pair when one exists and `(unknown, 0)` otherwise,
and the cache (in particular this slug's entry) is left unchanged; the
failure never escapes (the embedding is a total function whose failure
branch this theorem evaluates). -/
theorem claim_C6_snapshot_failure (cache : LiveCache) (now : Int)
    (net : String → Option (Bool × Int)) (slug : String) (maxAge : Int)
    (hstale : (match cacheLookup cache slug with
      | some (_, _, t) => decide (now - t ≤ maxAge)
      | none => false) = false)
    (hfail : net slug = none) :
    getChannelLiveSnapshot cache now net slug maxAge true =
      ((match cacheLookup cache slug with
        | some (l, v, _) => (l, v)
        | none => (none, 0)), cache) := by
  unfold getChannelLiveSnapshot
  cases hc : cacheLookup cache slug with
  | none => simp [hc, hfail]
  | some e =>
    obtain ⟨l, v, t⟩ := e
    rw [hc] at hstale
    simp only [hc, hstale, hfail]
    simp

/-- C6 witness: a stale cached pair survives a network failure. -/
theorem claim_C6_witness :
    getChannelLiveSnapshot [("s", (some true, 5, 0))] 100 (fun _ => none) "s" 45 true =
      ((some true, 5), [("s", (some true, 5, 0))]) :=
  claim_C6_snapshot_failure [("s", (some true, 5, 0))] 100 (fun _ => none) "s" 45
    (by decide) rfl

/-- C9: when a retry hint is set, next-item ordering is the partition
`matching ++ others` (each `filter` preserving the original relative
order); when no item matches, both hints are cleared and the original
order is used. -/
theorem claim_C9_retry_hint_partition (hintId hintName : Option String)
    (items : List QueueItem)
    (hset : pyStrip (hintId.getD "") ≠ "" ∨ pyLower (pyStrip (hintName.getD "")) ≠ "") :
    ((∃ i ∈ items, matchesHint (pyStrip (hintId.getD ""))
        (pyLower (pyStrip (hintName.getD ""))) i = true) →
      selectOrderedItems hintId hintName items =
        (items.filter (matchesHint (pyStrip (hintId.getD ""))
           (pyLower (pyStrip (hintName.getD "")))) ++
         items.filter (fun i => !(matchesHint (pyStrip (hintId.getD ""))
           (pyLower (pyStrip (hintName.getD ""))) i)),
         hintId, hintName)) ∧
    ((∀ i ∈ items, matchesHint (pyStrip (hintId.getD ""))
        (pyLower (pyStrip (hintName.getD ""))) i = false) →
      selectOrderedItems hintId hintName items = (items, none, none)) := by
  constructor
  · intro ⟨i, hi, hm⟩
    have hne : items.filter (matchesHint (pyStrip (hintId.getD ""))
        (pyLower (pyStrip (hintName.getD "")))) ≠ [] :=
      List.ne_nil_of_mem (List.mem_filter.mpr ⟨hi, hm⟩)
    simp only [selectOrderedItems]
    rw [if_pos hset, if_pos (by simp [hne])]
  · intro hall
    have hnil : items.filter (matchesHint (pyStrip (hintId.getD ""))
        (pyLower (pyStrip (hintName.getD "")))) = [] := by
      rw [List.filter_eq_nil]
      intro i hi
      simp [hall i hi]
    simp only [selectOrderedItems]
    rw [if_pos hset, if_neg (by simp [hnil])]

/-- C9 witness: a hinted item is moved in front; the hint survives. -/
theorem claim_C9_witness :
    selectOrderedItems (some "c1") none
      [{ url := "a", campaign_id := some "x" }, { url := "b", campaign_id := some "c1" }] =
      ([{ url := "b", campaign_id := some "c1" }, { url := "a", campaign_id := some "x" }],
        some "c1", none) := by
  have h := (claim_C9_retry_hint_partition (some "c1") none
      [{ url := "a", campaign_id := some "x" }, { url := "b", campaign_id := some "c1" }]
      (by decide)).1
      ⟨{ url := "b", campaign_id := some "c1" }, by decide, by decide⟩
  exact h.trans (by decide)

theorem pyStr_pyOr_str_default (s d : String) (h : s ≠ "") :
    pyStr (pyOr (.str s) (.str d)) = s := by
  simp [pyOr, pyTruthy, h, pyStr]

theorem pyStr_pyOr_str_empty (s : String) : pyStr (pyOr (.str s) (.str "")) = s := by
  by_cases h : s = ""
  · subst h; rfl
  · exact pyStr_pyOr_str_default s "" h

theorem queueItem_roundtrip (item : QueueItem) (hstatus : item.status ≠ "")
    (hcat : item.category_id ≠ some 0) :
    QueueItem.from_dict (QueueItem.to_dict item) = item := by
  obtain ⟨url, mt, es, status, cid, cname, catid, notes⟩ := item
  simp only [QueueItem.to_dict, QueueItem.from_dict, dictGet, List.foldl]
  simp only [QueueItem.mk.injEq]
  refine ⟨?_, ?_, ?_, ?_, ?_, ?_, ?_, ?_⟩
  · exact pyStr_pyOr_str_empty url
  · rfl
  · rfl
  · exact pyStr_pyOr_str_default status "PENDING" hstatus
  · cases cid <;> rfl
  · cases cname <;> rfl
  · cases catid with
    | none => rfl
    | some n =>
      have hn : n ≠ 0 := by
        intro h
        exact hcat (by simp_all)
      simp [pySafeInt, hn]
  · exact pyStr_pyOr_str_empty notes

/-- C8 (amended): reloading the persisted form of a queue reproduces
the same ordered list field-for-field, for every queue whose items have
a non-empty status and a category id other than `0` (the persisted
falsy values `status=""` and `category_id=0` are normalized to
`"PENDING"`/`None` on reload). -/
theorem claim_C8_roundtrip (items : List QueueItem)
    (h : ∀ i ∈ items, i.status ≠ "" ∧ i.category_id ≠ some 0) :
    queueItemsFromRaw (items.map fun i => Json.obj i.to_dict) = items := by
  induction items with
  | nil => rfl
  | cons i rest ih =>
    have hi := h i (List.mem_cons.mpr (Or.inl rfl))
    have hrest := ih fun j hj => h j (List.mem_cons.mpr (Or.inr hj))
    simp only [List.map_cons, queueItemsFromRaw, List.filterMap_cons] at *
    simp only [Json.asDict]
    rw [List.map_cons]
    rw [queueItem_roundtrip i hi.1 hi.2]
    congr 1

/-- C8 counterexample: `category_id = 0` does not survive the round
trip (`_safe_int(...) or None` maps it to `None`), refuting the claim
for every `QueueItem`. -/
theorem claim_C8_counterexample :
    QueueItem.from_dict (QueueItem.to_dict { url := "u", category_id := some 0 }) ≠
      ({ url := "u", category_id := some 0 } : QueueItem) := by
  decide

/-- C8 witness: a concrete queue round-trips unchanged. -/
theorem claim_C8_witness :
    queueItemsFromRaw
      (([{ url := "https://kick.com/foo"
           minutes_target := 30
           elapsed_seconds := 60
           status := "LIVE"
           campaign_id := some "c1"
           campaign_name := some "Camp"
           category_id := some 3
           notes := "n" },
         { url := "https://kick.com/bar" }] : List QueueItem).map fun i => Json.obj i.to_dict) =
      ([{ url := "https://kick.com/foo"
          minutes_target := 30
          elapsed_seconds := 60
          status := "LIVE"
          campaign_id := some "c1"
          campaign_name := some "Camp"
          category_id := some 3
          notes := "n" },
        { url := "https://kick.com/bar" }] : List QueueItem) :=
  claim_C8_roundtrip _ (by decide)

end KickDrops

namespace KickDrops

theorem jsonIterable_ok {v : Json} (h : jsonIterable v = true) :
    ∃ xs, pyIterElems v = .ok xs := by
  unfold jsonIterable at h
  unfold pyIterElems
  by_cases ht : pyTruthy v = true
  · rw [if_pos ht]
    rw [ht] at h
    simp only [Bool.not_true, Bool.false_or] at h
    cases v <;> simp_all
  · rw [if_neg ht]
    exact ⟨[], rfl⟩

theorem jsonDictOrFalsy_ok {v : Json} (h : jsonDictOrFalsy v = true) :
    ∃ kvs, pyDictOrEmpty v = .ok kvs := by
  unfold jsonDictOrFalsy at h
  unfold pyDictOrEmpty
  by_cases ht : pyTruthy v = true
  · rw [if_pos ht]
    rw [ht] at h
    simp only [Bool.not_true, Bool.false_or] at h
    cases v <;> simp_all
  · rw [if_neg ht]
    exact ⟨[], rfl⟩

theorem exceptBind_ok {ε α β : Type} (a : α) (f : α → Except ε β) :
    (Except.ok a >>= f) = f a := rfl

theorem exceptBind_err {ε α β : Type} (e : ε) (f : α → Except ε β) :
    ((Except.error e : Except ε α) >>= f) = .error e := rfl

theorem exceptMap_ok {ε α β : Type} (f : α → β) (a : α) :
    (Except.ok a : Except ε α).map f = .ok (f a) := rfl

theorem exceptMap_err {ε α β : Type} (f : α → β) (e : ε) :
    (Except.error e : Except ε α).map f = .error e := rfl

theorem exceptPure {ε α : Type} (a : α) : (pure a : Except ε α) = .ok a := rfl

theorem exceptBindM_ok {ε α β : Type} (a : α) (f : α → Except ε β) :
    (Except.ok a : Except ε α).bind f = f a := rfl

theorem exceptBindM_err {ε α β : Type} (e : ε) (f : α → Except ε β) :
    (Except.error e : Except ε α).bind f = .error e := rfl

theorem exceptFmap_ok {ε α β : Type} (f : α → β) (a : α) :
    (f <$> (Except.ok a : Except ε α)) = .ok (f a) := rfl

theorem exceptFmap_err {ε α β : Type} (f : α → β) (e : ε) :
    (f <$> (Except.error e : Except ε α)) = (.error e : Except ε β) := rfl

theorem from_campaign_channel_ok {d : List (String × Json)}
    (h : jsonDictOrFalsy (dictGet d "user") = true) :
    ∃ c?, KickChannel.from_campaign_channel d = .ok c? ∧
      ∀ c, c? = some c → c.slug ≠ "" := by
  simp only [KickChannel.from_campaign_channel]
  split
  · exact ⟨none, rfl, by simp⟩
  · next hs =>
    obtain ⟨kvs, hkvs⟩ := jsonDictOrFalsy_ok h
    rw [hkvs]
    refine ⟨_, rfl, ?_⟩
    intro c hc
    obtain rfl := Option.some.inj hc
    exact hs

theorem channelsFromApi_ok {ds : List (List (String × Json))}
    (h : ∀ d ∈ ds, jsonDictOrFalsy (dictGet d "user") = true) :
    ∃ chans, channelsFromApi ds = .ok chans ∧ ∀ c ∈ chans, c.slug ≠ "" := by
  induction ds with
  | nil => exact ⟨[], rfl, by simp⟩
  | cons d ds ih =>
    obtain ⟨c?, hc, hslug⟩ := from_campaign_channel_ok
      (h d (List.mem_cons.mpr (Or.inl rfl)))
    obtain ⟨chans, hch, hall⟩ := ih fun d' hd' => h d' (List.mem_cons.mpr (Or.inr hd'))
    cases c? with
    | none =>
      refine ⟨chans, ?_, hall⟩
      simp [channelsFromApi, hc, hch, exceptBind_ok, exceptPure]
    | some c =>
      refine ⟨c :: chans, ?_, ?_⟩
      · simp [channelsFromApi, hc, hch, exceptBind_ok, exceptPure]
      · intro c' hc'
        rcases List.mem_cons.mp hc' with rfl | hc'
        · exact hslug c' rfl
        · exact hall c' hc'

theorem from_api_ok {d : List (String × Json)} (h : campaignDictOk d = true) :
    ∃ c, KickCampaign.from_api d = .ok c ∧ ∀ ch ∈ c.channels, ch.slug ≠ "" := by
  unfold campaignDictOk at h
  simp only [Bool.and_eq_true] at h
  obtain ⟨⟨⟨hrew, hchan⟩, hcat⟩, husers⟩ := h
  obtain ⟨rxs, hrxs⟩ := jsonIterable_ok hrew
  obtain ⟨cxs, hcxs⟩ := jsonIterable_ok hchan
  obtain ⟨ckvs, hckvs⟩ := jsonDictOrFalsy_ok hcat
  rw [hcxs] at husers
  have husers' : ∀ ch ∈ cxs.filterMap Json.asDict,
      jsonDictOrFalsy (dictGet ch "user") = true := by
    intro ch hch
    exact List.all_eq_true.mp husers ch hch
  obtain ⟨chans, hchans, hslugs⟩ := channelsFromApi_ok husers'
  simp only [KickCampaign.from_api, hrxs, hcxs, hchans, hckvs, exceptBindM_ok]
  refine ⟨_, rfl, ?_⟩
  simpa using hslugs

theorem campaignsFromApi_ok {ds : List (List (String × Json))}
    (h : ∀ d ∈ ds, campaignDictOk d = true) :
    ∃ cs, campaignsFromApi ds = .ok cs ∧
      ∀ c ∈ cs, ∀ ch ∈ c.channels, ch.slug ≠ "" := by
  induction ds with
  | nil => exact ⟨[], rfl, by simp⟩
  | cons d ds ih =>
    obtain ⟨c, hc, hch⟩ := from_api_ok (h d (List.mem_cons.mpr (Or.inl rfl)))
    obtain ⟨cs, hcs, hall⟩ := ih fun d' hd' => h d' (List.mem_cons.mpr (Or.inr hd'))
    refine ⟨c :: cs, ?_, ?_⟩
    · simp [campaignsFromApi, hc, hcs, exceptBind_ok, exceptPure]
    · intro c' hc'
      rcases List.mem_cons.mp hc' with rfl | hc'
      · exact hch
      · exact hall c' hc'

theorem parse_data_arr (items : List Json) :
    parse_campaigns_response [("data", .arr items)] =
      (campaignsFromApi (items.filterMap Json.asDict)).map
        (List.filter (fun c => c.id ≠ "")) := by
  simp only [parse_campaigns_response]
  have hget : dictGet [("data", Json.arr items)] "data" = .arr items := by
    simp [dictGet]
  rw [hget]
  have hor : pyOr (Json.arr items) (Json.arr []) = Json.arr items := by
    cases items <;> simp [pyOr, pyTruthy]
  rw [hor]
  cases h : campaignsFromApi (items.filterMap Json.asDict) <;>
    simp [h, exceptBindM_ok, Except.bind, Except.map]

theorem campaignsFromApi_append (xs ys : List (List (String × Json))) :
    campaignsFromApi (xs ++ ys) =
      (campaignsFromApi xs).bind fun cs1 =>
        (campaignsFromApi ys).map fun cs2 => cs1 ++ cs2 := by
  induction xs with
  | nil =>
    cases h : campaignsFromApi ys <;>
      simp [campaignsFromApi, h, exceptBindM_ok, exceptBindM_err, exceptFmap_ok, exceptFmap_err, Except.map, exceptPure]
  | cons d ds ih =>
    show campaignsFromApi (d :: (ds ++ ys)) = _
    cases hd : KickCampaign.from_api d with
    | error e => simp [campaignsFromApi, hd, exceptBind_err, exceptBindM_ok, exceptBindM_err, exceptFmap_ok, exceptFmap_err, Except.map]
    | ok c =>
      simp only [campaignsFromApi, hd, exceptBind_ok]
      rw [ih]
      cases hds : campaignsFromApi ds with
      | error e => simp [hds, exceptBind_err, exceptBindM_ok, exceptBindM_err, exceptFmap_ok, exceptFmap_err, Except.map]
      | ok cs =>
        cases hys : campaignsFromApi ys <;>
          simp [hds, hys, exceptBind_ok, exceptBind_err, exceptBindM_ok, exceptBindM_err, exceptFmap_ok, exceptFmap_err, Except.map, exceptPure]


end KickDrops

namespace KickDrops

/-- C7 (amended): parsing the campaigns response never raises and
skips malformed records item-by-item, provided the nested
`user`/`category`/`rewards`/`channels` fields of each campaign record
are of the shapes the code anticipates (dict-or-falsy, respectively
iterable-or-falsy); under that proviso every returned campaign has a
non-empty id and every returned channel a non-empty slug, and
non-dict data entries, campaigns with empty id, and channel records
with blank slug are each dropped without affecting the rest.  (On
other payloads the parse can raise: see the counterexample.) -/
theorem claim_C7_parse_skips :
    (∀ (payload : List (String × Json)),
      (∀ items, pyOr (dictGet payload "data") (.arr []) = .arr items →
        ∀ d ∈ items.filterMap Json.asDict, campaignDictOk d = true) →
      ∃ cs, parse_campaigns_response payload = .ok cs ∧
        ∀ c ∈ cs, c.id ≠ "" ∧ ∀ ch ∈ c.channels, ch.slug ≠ "") ∧
    (∀ (items1 items2 : List Json) (v : Json), Json.asDict v = none →
      parse_campaigns_response [("data", .arr (items1 ++ v :: items2))] =
      parse_campaigns_response [("data", .arr (items1 ++ items2))]) ∧
    (∀ (items1 items2 : List Json) (d : List (String × Json)) (c : KickCampaign),
      KickCampaign.from_api d = .ok c → c.id = "" →
      parse_campaigns_response [("data", .arr (items1 ++ .obj d :: items2))] =
      parse_campaigns_response [("data", .arr (items1 ++ items2))]) ∧
    (∀ (ds1 ds2 : List (List (String × Json))) (chd : List (String × Json)),
      pyStrip (pyStr (pyOr (dictGet chd "slug") (.str ""))) = "" →
      channelsFromApi (ds1 ++ chd :: ds2) = channelsFromApi (ds1 ++ ds2)) := by
  refine ⟨?_, ?_, ?_, ?_⟩
  · intro payload hok
    unfold parse_campaigns_response
    cases hdata : pyOr (dictGet payload "data") (.arr []) with
    | arr items =>
      obtain ⟨cs0, hcs0, hprops⟩ := campaignsFromApi_ok (hok items hdata)
      refine ⟨cs0.filter (fun c => c.id ≠ ""), ?_, ?_⟩
      · show (campaignsFromApi (items.filterMap Json.asDict)).bind
            (fun campaigns => Except.ok (campaigns.filter (fun c => c.id ≠ ""))) = _
        rw [hcs0, exceptBindM_ok]
      · intro c hc
        have hmem := List.mem_filter.mp hc
        refine ⟨by simpa using hmem.2, hprops c hmem.1⟩
    | null => exact ⟨[], rfl, by simp⟩
    | bool b => exact ⟨[], rfl, by simp⟩
    | int n => exact ⟨[], rfl, by simp⟩
    | str s => exact ⟨[], rfl, by simp⟩
    | obj kvs => exact ⟨[], rfl, by simp⟩
  · intro items1 items2 v hv
    rw [parse_data_arr, parse_data_arr, List.filterMap_append, List.filterMap_append,
      List.filterMap_cons_none hv]
  · intro items1 items2 d c hd hid
    rw [parse_data_arr, parse_data_arr, List.filterMap_append, List.filterMap_append]
    rw [List.filterMap_cons_some (by rfl : Json.asDict (.obj d) = some d)]
    rw [campaignsFromApi_append, campaignsFromApi_append]
    cases h1 : campaignsFromApi (items1.filterMap Json.asDict) with
    | error e => simp [exceptBindM_err, Except.map]
    | ok cs1 =>
      simp only [exceptBindM_ok]
      cases h2 : campaignsFromApi (items2.filterMap Json.asDict) with
      | error e =>
        have h3 : campaignsFromApi (d :: items2.filterMap Json.asDict) = .error e := by
          simp [campaignsFromApi, hd, h2, exceptBind_ok, exceptBind_err]
        rw [h3]
      | ok cs2 =>
        have h3 : campaignsFromApi (d :: items2.filterMap Json.asDict) = .ok (c :: cs2) := by
          simp [campaignsFromApi, hd, h2, exceptBind_ok, exceptPure]
        rw [h3]
        simp only [exceptMap_ok]
        congr 1
        rw [List.filter_append, List.filter_append]
        congr 1
        rw [List.filter_cons_of_neg (by simp [hid])]
  · intro ds1 ds2 chd hslug
    have hchd : KickChannel.from_campaign_channel chd = .ok none := by
      simp only [KickChannel.from_campaign_channel]
      rw [if_pos hslug]
    induction ds1 with
    | nil =>
      show channelsFromApi (chd :: ds2) = _
      cases h : channelsFromApi ds2 <;>
        simp [channelsFromApi, hchd, h, exceptBind_ok, exceptBind_err, exceptPure]
    | cons d ds1 ih =>
      show channelsFromApi (d :: (ds1 ++ chd :: ds2)) = channelsFromApi (d :: (ds1 ++ ds2))
      cases hd : KickChannel.from_campaign_channel d with
      | error e => simp [channelsFromApi, hd, exceptBind_err]
      | ok c? =>
        simp only [channelsFromApi, hd, exceptBind_ok]
        rw [ih]

/-- C7 counterexample: a payload whose channel record carries a truthy
non-dict `"user"` makes the parse raise `AttributeError` (the claim
states parsing never raises on any JSON payload). -/
theorem claim_C7_counterexample :
    parse_campaigns_response
      [("data", Json.arr [Json.obj
        [("id", Json.str "x"),
         ("channels", Json.arr [Json.obj
           [("slug", Json.str "s"), ("user", Json.str "bob")]])]])] =
      .error .attributeError := by
  rfl

/-- C7 witness: a payload with a non-dict entry and a well-formed
campaign parses successfully, keeping the well-formed record. -/
theorem claim_C7_witness :
    ∃ cs, parse_campaigns_response
        [("data", Json.arr [Json.int 5, Json.obj [("id", Json.str "c1")]])] = .ok cs ∧
      ∀ c ∈ cs, c.id ≠ "" ∧ ∀ ch ∈ c.channels, ch.slug ≠ "" := by
  refine claim_C7_parse_skips.1 _ ?_
  intro items heq
  cases (show Json.arr [Json.int 5, Json.obj [("id", Json.str "c1")]] = Json.arr items
    from heq)
  decide

end KickDrops

namespace KickDrops

theorem uiUpdateItem_of_first (pre post : List QueueItem) (item : QueueItem)
    (hid hname : Option String) (url : String) (ch : UpdateChanges)
    (hpre : ∀ j ∈ pre, j.url ≠ url) (hurl : item.url = url)
    (hnf : ¬ ((applyChanges item ch).status = "FINISHED" ∨
      (applyChanges item ch).status = "EXPIRED")) :
    uiUpdateItem (pre ++ item :: post) hid hname url ch =
      (pre ++ applyChanges item ch :: post, hid, hname) := by
  induction pre with
  | nil =>
    simp only [List.nil_append, uiUpdateItem]
    rw [if_pos hurl, if_neg (by simp_all)]
  | cons j pre ih =>
    simp only [List.cons_append, uiUpdateItem]
    rw [if_neg (hpre j (List.mem_cons.mpr (Or.inl rfl)))]
    simp only [List.append_eq]
    rw [ih fun j' hj' => hpre j' (List.mem_cons.mpr (Or.inr hj'))]

theorem find?_first_url (pre post : List QueueItem) (item : QueueItem) (url : String)
    (hpre : ∀ j ∈ pre, j.url ≠ url) (hurl : item.url = url) :
    (pre ++ item :: post).find? (fun i => i.url = url) = some item := by
  induction pre with
  | nil => simp [hurl]
  | cons j pre ih =>
    rw [List.cons_append,
      List.find?_cons_of_neg _ (by simpa using hpre j (List.mem_cons.mpr (Or.inl rfl)))]
    exact ih fun j' hj' => hpre j' (List.mem_cons.mpr (Or.inr hj'))

theorem listIndexOf_first (pre post : List QueueItem) (item : QueueItem)
    (hpre : ∀ j ∈ pre, j ≠ item) :
    listIndexOf item (pre ++ item :: post) = some pre.length := by
  induction pre with
  | nil => simp [listIndexOf]
  | cons j pre ih =>
    rw [List.cons_append]
    show (if j = item then some 0 else (listIndexOf item (pre ++ item :: post)).map (· + 1)) =
      some (j :: pre).length
    rw [if_neg (hpre j (List.mem_cons.mpr (Or.inl rfl)))]
    rw [ih fun j' hj' => hpre j' (List.mem_cons.mpr (Or.inr hj'))]
    rfl

theorem eraseIdx_middle (pre post : List QueueItem) (item : QueueItem) :
    (pre ++ item :: post).eraseIdx pre.length = pre ++ post := by
  induction pre with
  | nil => simp
  | cons j pre ih => simp [ih]

theorem uiRotateItem_of_unique (pre post : List QueueItem) (item : QueueItem)
    (url : String) (hpre : ∀ j ∈ pre, j.url ≠ url) (hurl : item.url = url) :
    uiRotateItem (pre ++ item :: post) url = (pre ++ post) ++ [item] := by
  have h1 := find?_first_url pre post item url hpre hurl
  have h2 : listIndexOf item (pre ++ item :: post) = some pre.length :=
    listIndexOf_first pre post item (fun j hj hEq => hpre j hj (hEq ▸ hurl))
  simp only [uiRotateItem, h1, h2]
  cases post with
  | nil =>
    rw [if_neg (by simp)]
    simp
  | cons q qs =>
    rw [if_pos (by simp [List.length_append] <;> omega)]
    rw [eraseIdx_middle]

/-- C5 (amended): when a force-switch request is pending for the
watched URL and the loop is running (stop unset), the very next watch
iteration consumes the request, posts a RETRY update whose note
contains "manual", and exits with a `"retry"` result; after the UI
drains the posted messages and the run loop's retry follow-up, the
item sits at the tail of the queue with status RETRY — provided the
item has not already reached its viewing target (`done` items are
normalized to FINISHED by `_ui_update_item`) and the watched item is
the first queue entry with its URL. -/
theorem claim_C5_force_switch (forceSet : List String) (url slug : String)
    (item : QueueItem) (pre post : List QueueItem) (hintId hintName : Option String)
    (now nextPoll nextTick pollEvery tickSeconds : Int)
    (liveNet : Except String LiveInfo) (autoClaim : Bool)
    (hurl : item.url = url)
    (hmem : pyStrip url ∈ forceSet) (hne : pyStrip url ≠ "")
    (hfirst : ∀ j ∈ pre, j.url ≠ url)
    (hnotdone : item.done = false) :
    (watchIter false forceSet url slug item now nextPoll nextTick pollEvery
        tickSeconds liveNet autoClaim).1 = some "retry" ∧
    (watchIter false forceSet url slug item now nextPoll nextTick pollEvery
        tickSeconds liveNet autoClaim).2.1 = forceSet.erase (pyStrip url) ∧
    (∃ n, WorkerMsg.updateItem url { status := some "RETRY", notes := some n } ∈
        (watchIter false forceSet url slug item now nextPoll nextTick pollEvery
          tickSeconds liveNet autoClaim).2.2.1 ∧
      strContainsSub n "manual" = true) ∧
    (applyWorkerMsgs (pre ++ item :: post, hintId, hintName)
        ((watchIter false forceSet url slug item now nextPoll nextTick pollEvery
          tickSeconds liveNet autoClaim).2.2.1 ++ workerRetryAftermath item)).1 =
      (pre ++ post) ++
        [{ item with status := "RETRY", notes := "cambio manual de canal" }] := by
  have hconsume : consumeForceChannelSwitch forceSet url =
      (true, forceSet.erase (pyStrip url)) := by
    unfold consumeForceChannelSwitch
    rw [if_neg hne, if_pos (List.elem_eq_true_of_mem hmem)]
  have hiter : watchIter false forceSet url slug item now nextPoll nextTick pollEvery
      tickSeconds liveNet autoClaim =
      (some "retry", forceSet.erase (pyStrip url),
        [.updateItem url { status := some "RETRY", notes := some "cambio manual de canal" },
         .log ("Cambio manual solicitado: " ++ slug)],
        nextPoll, nextTick) := by
    unfold watchIter
    rw [if_neg (by simp)]
    rw [hconsume]
    rfl
  have hupd : applyChanges item
      { status := some "RETRY", notes := some "cambio manual de canal" } =
      { item with status := "RETRY", notes := "cambio manual de canal" } := by
    unfold applyChanges
    simp only []
    rw [if_neg (by
      simp only [QueueItem.done] at hnotdone ⊢
      simp [hnotdone])]
  have e1 : applyWorkerMsg (pre ++ item :: post, hintId, hintName)
      (.updateItem url { status := some "RETRY", notes := some "cambio manual de canal" }) =
      (pre ++ ({ item with status := "RETRY", notes := "cambio manual de canal" } :
        QueueItem) :: post, hintId, hintName) := by
    show uiUpdateItem (pre ++ item :: post) hintId hintName url _ = _
    rw [uiUpdateItem_of_first pre post item hintId hintName url _ hfirst hurl
      (by rw [hupd]; simp), hupd]
  refine ⟨by rw [hiter], by rw [hiter], ?_, ?_⟩
  · refine ⟨"cambio manual de canal", ?_, by decide⟩
    rw [hiter]
    exact List.mem_cons.mpr (Or.inl rfl)
  · rw [hiter]
    simp only [workerRetryAftermath, applyWorkerMsgs, List.cons_append, List.nil_append,
      List.foldl_cons, List.foldl_nil]
    rw [e1]
    rw [show ∀ (st : List QueueItem × Option String × Option String) (s : String),
        applyWorkerMsg st (.log s) = st from fun st s => by
      obtain ⟨q, h1, h2⟩ := st
      rfl]
    rw [show ∀ (q : List QueueItem) (h1 h2 a b : Option String),
        applyWorkerMsg (q, h1, h2) (.setRetryHint a b) =
          (q, (uiSetRetryCampaignHint a b).1, (uiSetRetryCampaignHint a b).2) from
      fun q h1 h2 a b => rfl]
    show uiRotateItem
      (pre ++ ({ item with status := "RETRY", notes := "cambio manual de canal" } :
        QueueItem) :: post) item.url = _
    rw [uiRotateItem_of_unique pre post
      ({ item with status := "RETRY", notes := "cambio manual de canal" }) item.url
      (fun j hj => by rw [hurl]; exact hfirst j hj) rfl]

/-- C5 counterexample: if the item has reached its target (`done`)
while being watched, the pending force-switch still ends the loop with
a retry result, but `_ui_update_item`'s done-override turns the posted
RETRY into FINISHED, so the claim's "sets the item's status to RETRY"
fails. -/
theorem claim_C5_counterexample :
    (watchIter false ["https://kick.com/foo"] "https://kick.com/foo" "foo"
      { url := "https://kick.com/foo", minutes_target := 1, elapsed_seconds := 60,
        status := "LIVE" } 0 0 0 5 30
      (Except.ok { live := true, category_id := none, viewer_count := 1 }) true).1 =
      some "retry" ∧
    (applyWorkerMsgs
      ([{ url := "https://kick.com/foo", minutes_target := 1, elapsed_seconds := 60,
          status := "LIVE" }], none, none)
      ((watchIter false ["https://kick.com/foo"] "https://kick.com/foo" "foo"
        { url := "https://kick.com/foo", minutes_target := 1, elapsed_seconds := 60,
          status := "LIVE" } 0 0 0 5 30
        (Except.ok { live := true, category_id := none, viewer_count := 1 }) true).2.2.1 ++
        workerRetryAftermath
          { url := "https://kick.com/foo", minutes_target := 1, elapsed_seconds := 60,
            status := "LIVE" })).1 =
      [{ url := "https://kick.com/foo", minutes_target := 1, elapsed_seconds := 60,
         status := "FINISHED", notes := "cambio manual de canal" }] ∧
    ("FINISHED" : String) ≠ "RETRY" := by
  refine ⟨by decide, by decide, by decide⟩

/-- C5 witness: the amended theorem applied to a live, not-done item. -/
theorem claim_C5_witness :
    (watchIter false ["https://kick.com/a"] "https://kick.com/a" "a"
      { url := "https://kick.com/a", status := "LIVE" } 0 0 0 5 30
      (Except.ok { live := true, category_id := none, viewer_count := 0 }) true).1 =
      some "retry" :=
  (claim_C5_force_switch ["https://kick.com/a"] "https://kick.com/a" "a"
    { url := "https://kick.com/a", status := "LIVE" } [] [] none none 0 0 0 5 30
    (Except.ok { live := true, category_id := none, viewer_count := 0 }) true
    rfl (by decide) (by decide) (by decide) (by decide)).1

end KickDrops

namespace KickDrops

theorem firstExistingByUrl_url {queue : List QueueItem} {u : String} {e : QueueItem}
    (h : firstExistingByUrl queue u = some e) : e.url = u := by
  have := List.find?_some h
  simp only [Bool.and_eq_true, decide_eq_true_eq] at this
  exact this.2

theorem reconcileRows_foldl_inv (queue : List QueueItem) :
    ∀ (rows : List DesiredRow) (st : List QueueItem × List String × Nat × Nat),
      (∀ i ∈ st.1, i.url ∈ st.2.1) →
      (∀ x ∈ st.2.1, ∃ i ∈ st.1, i.url = x) →
      (∀ i ∈ (rows.foldl (reconcileStep queue) st).1,
        i.url ∈ (rows.foldl (reconcileStep queue) st).2.1) ∧
      (∀ x ∈ (rows.foldl (reconcileStep queue) st).2.1,
        ∃ i ∈ (rows.foldl (reconcileStep queue) st).1, i.url = x) := by
  intro rows
  induction rows with
  | nil =>
    intro st h1 h2
    exact ⟨h1, h2⟩
  | cons row rest ih =>
    intro st h1 h2
    rw [List.foldl_cons]
    obtain ⟨p, us, a, u⟩ := st
    cases hfind : firstExistingByUrl queue (rowUrl row) with
    | none =>
      have hstep : reconcileStep queue (p, us, a, u) row =
          (p ++ [reconFresh row], us ++ [rowUrl row], a + 1, u) := by
        simp only [reconcileStep, hfind]
      rw [hstep]
      apply ih
      · intro i hi
        rcases List.mem_append.mp hi with hi | hi
        · exact List.mem_append.mpr (Or.inl (h1 i hi))
        · rw [List.mem_singleton.mp hi]
          exact List.mem_append.mpr (Or.inr (List.mem_singleton.mpr (by rfl)))
      · intro x hx
        rcases List.mem_append.mp hx with hx | hx
        · obtain ⟨i, hi, hiu⟩ := h2 x hx
          exact ⟨i, List.mem_append.mpr (Or.inl hi), hiu⟩
        · refine ⟨_, List.mem_append.mpr (Or.inr (List.mem_singleton.mpr rfl)), ?_⟩
          rw [List.mem_singleton.mp hx]
          rfl
    | some e =>
      have heu : e.url = rowUrl row := firstExistingByUrl_url hfind
      have hstep : ∃ upd : QueueItem, upd.url = e.url ∧ ∃ u',
          reconcileStep queue (p, us, a, u) row =
            (p ++ [upd], us ++ [rowUrl row], a, u') := by
        refine ⟨reconUpd e row, ?_, if reconChanged e row = true then u + 1 else u,
          by simp only [reconcileStep, hfind]⟩
        simp only [reconUpd]
        split <;> rfl
      obtain ⟨upd, hupdu, u', hstep⟩ := hstep
      rw [hstep]
      apply ih
      · intro i hi
        rcases List.mem_append.mp hi with hi | hi
        · exact List.mem_append.mpr (Or.inl (h1 i hi))
        · rw [List.mem_singleton.mp hi]
          rw [hupdu, heu]
          exact List.mem_append.mpr (Or.inr (List.mem_singleton.mpr rfl))
      · intro x hx
        rcases List.mem_append.mp hx with hx | hx
        · obtain ⟨i, hi, hiu⟩ := h2 x hx
          exact ⟨i, List.mem_append.mpr (Or.inl hi), hiu⟩
        · refine ⟨upd, List.mem_append.mpr (Or.inr (List.mem_singleton.mpr rfl)), ?_⟩
          rw [List.mem_singleton.mp hx, hupdu, heu]

theorem reconcileRows_inv (queue : List QueueItem) (rows : List DesiredRow) :
    (∀ i ∈ (reconcileRows queue rows).1, i.url ∈ (reconcileRows queue rows).2.1) ∧
    (∀ x ∈ (reconcileRows queue rows).2.1,
      ∃ i ∈ (reconcileRows queue rows).1, i.url = x) :=
  reconcileRows_foldl_inv queue rows ([], [], 0, 0) (by simp) (by simp)

theorem eq_of_same_url {queue : List QueueItem}
    (hd : queue.Pairwise (fun a b => a.url ≠ b.url)) {a b : QueueItem}
    (ha : a ∈ queue) (hb : b ∈ queue) (hurl : a.url = b.url) : a = b := by
  by_cases h : a = b
  · exact h
  · have hsym : Symmetric (fun a b : QueueItem => a.url ≠ b.url) := by
      intro x y hxy e
      exact hxy e.symm
    exact absurd hurl (hd.forall hsym ha hb h)

theorem autoQueueSelectedGames_eq_core (campaigns : List KickCampaign)
    (prefs : List String) (queue : List QueueItem) (cache : LiveCache)
    (now : Int) (net : String → Option (Bool × Int)) (hne : campaigns ≠ []) :
    autoQueueSelectedGames campaigns prefs queue cache now net =
      autoQueueCore campaigns (preferredGameFilter prefs).1
        (preferredGameFilter prefs).2 queue cache now net := by
  have h1 : campaigns.isEmpty = false := by
    cases campaigns with
    | nil => exact absurd rfl hne
    | cons a l => rfl
  have h2 : (!(preferredGameFilter prefs).1 &&
      (preferredGameFilter prefs).2.isEmpty) = false := by
    cases hm : (preferredGameFilter prefs).1 with
    | true => simp
    | false =>
      have hnil := preferredGameFilter_ne_nil prefs hm
      cases he : (preferredGameFilter prefs).2 with
      | nil => exact absurd he hnil
      | cons a l => simp [hm, he]
  simp [autoQueueSelectedGames, h1, h2]

theorem reconcile_final_parts (campaigns : List KickCampaign) (mineAll : Bool)
    (selected : List String) (queue : List QueueItem) (cache : LiveCache)
    (now : Int) (net : String → Option (Bool × Int)) :
    ∃ ordered : List DesiredRow,
      (autoQueueCore campaigns mineAll selected queue cache now net).2.2.1 =
        (reconcileRows queue ordered).2.1 ∧
      (autoQueueCore campaigns mineAll selected queue cache now net).1 =
        (reconcileRows queue ordered).1 ++
          queue.filter (fun i =>
            !((reconcileRows queue ordered).2.1.contains i.url) &&
            !(isAutoGamesChannelItem i)) :=
  ⟨((buildDesired campaigns mineAll selected now net cache).1.map Prod.snd).mergeSort
      (fun a b => keyLeb a.sortKey b.sortKey), rfl, rfl⟩

theorem reconcile_item_membership (queue : List QueueItem) (ordered : List DesiredRow)
    (hd : queue.Pairwise fun a b => a.url ≠ b.url) (item : QueueItem)
    (hmem : item ∈ queue) :
    (∃ j ∈ (reconcileRows queue ordered).1 ++
        queue.filter (fun i =>
          !((reconcileRows queue ordered).2.1.contains i.url) &&
          !(isAutoGamesChannelItem i)), j.url = item.url) ↔
      (item.url ∈ (reconcileRows queue ordered).2.1 ∨
        isAutoGamesChannelItem item = false) := by
  obtain ⟨hA, hB⟩ := reconcileRows_inv queue ordered
  constructor
  · rintro ⟨j, hj, hjurl⟩
    rcases List.mem_append.mp hj with hj1 | hj2
    · exact Or.inl (hjurl ▸ hA j hj1)
    · obtain ⟨hjq, hp⟩ := List.mem_filter.mp hj2
      have hj_eq : j = item := eq_of_same_url hd hjq hmem hjurl
      simp only [Bool.and_eq_true, Bool.not_eq_true'] at hp
      exact Or.inr (hj_eq ▸ hp.2)
  · rintro (hin | hman)
    · obtain ⟨i, hi, hiurl⟩ := hB _ hin
      exact ⟨i, List.mem_append.mpr (Or.inl hi), hiurl⟩
    · by_cases hin : item.url ∈ (reconcileRows queue ordered).2.1
      · obtain ⟨i, hi, hiurl⟩ := hB _ hin
        exact ⟨i, List.mem_append.mpr (Or.inl hi), hiurl⟩
      · refine ⟨item, List.mem_append.mpr (Or.inr ?_), rfl⟩
        refine List.mem_filter.mpr ⟨hmem, ?_⟩
        simp only [Bool.and_eq_true, Bool.not_eq_true']
        exact ⟨by simpa using hin, hman⟩

/-- C3 (amended): in one discovery-reconciliation run over a non-empty
campaign list and a queue whose items carry pairwise distinct urls, an
auto-marked item's url survives in the resulting queue exactly when it
is in the computed desired-url list, and a manual (unmarked) item's url
always survives. -/
theorem claim_C3_discovery_removal (campaigns : List KickCampaign)
    (prefs : List String) (queue : List QueueItem) (cache : LiveCache)
    (now : Int) (net : String → Option (Bool × Int))
    (hne : campaigns ≠ [])
    (hd : queue.Pairwise fun a b => a.url ≠ b.url) :
    ∀ item ∈ queue,
      (isAutoGamesChannelItem item = true →
        ((∃ j ∈ (autoQueueSelectedGames campaigns prefs queue cache now net).1,
            j.url = item.url) ↔
          item.url ∈ (autoQueueSelectedGames campaigns prefs queue cache now net).2.2.1)) ∧
      (isAutoGamesChannelItem item = false →
        ∃ j ∈ (autoQueueSelectedGames campaigns prefs queue cache now net).1,
          j.url = item.url) := by
  obtain ⟨ordered, hu, hq⟩ := reconcile_final_parts campaigns
    (preferredGameFilter prefs).1 (preferredGameFilter prefs).2 queue cache now net
  have hcore := autoQueueSelectedGames_eq_core campaigns prefs queue cache now net hne
  intro item hmem
  have hiff := reconcile_item_membership queue ordered hd item hmem
  rw [hcore, hu, hq]
  constructor
  · intro ha
    constructor
    · intro hex
      rcases hiff.mp hex with h | h
      · exact h
      · rw [ha] at h
        exact absurd h (by simp)
    · intro hin
      exact hiff.mpr (Or.inl hin)
  · intro hna
    exact hiff.mpr (Or.inr hna)

/-- C3 counterexample to the unamended claim: with an empty campaign
list the run returns early, so an auto-marked item whose url is not in
the (empty) desired-url list is nevertheless kept in the queue. -/
theorem claim_C3_counterexample :
    isAutoGamesChannelItem cexC3AutoItem = true ∧
    cexC3AutoItem.url ∉
      (autoQueueSelectedGames [] [] [cexC3AutoItem] [] 0 fun _ => none).2.2.1 ∧
    cexC3AutoItem ∈
      (autoQueueSelectedGames [] [] [cexC3AutoItem] [] 0 fun _ => none).1 := by
  refine ⟨by decide, by decide, by decide⟩

/-- C3 witness: the amended theorem applied to a concrete non-empty
campaign list and a singleton manual queue. -/
theorem claim_C3_witness :
    ([cexC3Campaign] ≠ ([] : List KickCampaign) ∧
      ([cexC3ManualItem].Pairwise fun a b => a.url ≠ b.url)) ∧
    (∀ item ∈ [cexC3ManualItem],
      (isAutoGamesChannelItem item = true →
        ((∃ j ∈ (autoQueueSelectedGames [cexC3Campaign] [] [cexC3ManualItem]
              [] 0 fun _ => none).1, j.url = item.url) ↔
          item.url ∈ (autoQueueSelectedGames [cexC3Campaign] [] [cexC3ManualItem]
              [] 0 fun _ => none).2.2.1)) ∧
      (isAutoGamesChannelItem item = false →
        ∃ j ∈ (autoQueueSelectedGames [cexC3Campaign] [] [cexC3ManualItem]
            [] 0 fun _ => none).1, j.url = item.url)) :=
  ⟨⟨by simp, by simp⟩,
    claim_C3_discovery_removal [cexC3Campaign] [] [cexC3ManualItem] [] 0
      (fun _ => none) (by simp) (by simp)⟩

theorem any_filter_partition {α : Type} (p q : α → Bool) (l : List α) :
    ((l.filter p ++ l.filter fun i => !(p i)).any q) = l.any q := by
  cases h : l.any q with
  | true =>
    obtain ⟨x, hx, hq⟩ := List.any_eq_true.mp h
    apply List.any_eq_true.mpr
    refine ⟨x, ?_, hq⟩
    cases hp : p x with
    | true =>
      exact List.mem_append.mpr (Or.inl (List.mem_filter.mpr ⟨hx, hp⟩))
    | false =>
      refine List.mem_append.mpr (Or.inr (List.mem_filter.mpr ⟨hx, ?_⟩))
      simp [hp]
  | false =>
    apply List.any_eq_false.mpr
    intro x hx
    have hxl : x ∈ l := by
      rcases List.mem_append.mp hx with h1 | h1
      · exact (List.mem_filter.mp h1).1
      · exact (List.mem_filter.mp h1).1
    exact List.any_eq_false.mp h x hxl

theorem selectOrderedItems_any (hintId hintName : Option String)
    (queue : List QueueItem) (q : QueueItem → Bool) :
    ((selectOrderedItems hintId hintName queue).1).any q = queue.any q := by
  simp only [selectOrderedItems]
  split
  · split
    · exact any_filter_partition _ q queue
    · rfl
  · rfl

theorem runNextLoop_isSome (campaigns : List KickCampaign)
    (progress : List KickProgressCampaign) (mineAll : Bool)
    (selected : List String) (now : Int) (net : String → Option (Bool × Int)) :
    ∀ (items : List QueueItem) (cache : LiveCache)
      (fb : Option (QueueItem × Int)) (acc : List QueueItem),
      (runNextLoop campaigns progress mineAll selected now net
          items cache fb acc).1.isSome =
        (fb.isSome || items.any fun item =>
          (itemPass campaigns progress mineAll selected now item).isCandidate) := by
  intro items
  induction items with
  | nil =>
    intro cache fb acc
    simp [runNextLoop]
  | cons item rest ih =>
    intro cache fb acc
    cases hpass : itemPass campaigns progress mineAll selected now item with
    | skip i2 =>
      simp only [runNextLoop, hpass, ih, List.any_cons, ItemPass.isCandidate,
        Bool.false_or]
    | skipFilter i2 =>
      simp only [runNextLoop, hpass, ih, List.any_cons, ItemPass.isCandidate,
        Bool.false_or]
    | candidate i2 c =>
      simp only [runNextLoop, hpass, List.any_cons, ItemPass.isCandidate,
        Bool.true_or, Bool.or_true]
      split
      · split
        · simp
        · rw [ih]
          cases fb with
          | none => simp
          | some p => split <;> simp
      · split
        · simp
        · rw [ih]
          cases fb with
          | none => simp
          | some p => split <;> simp

/-- C1: with at least one queued item, `get_next_queue_item` returns an
item exactly when some queue item survives the finalization pass (not
marked FINISHED by target/claim completion, status not FINISHED or
EXPIRED, campaign not expired) and is not skipped by the active
specific-games filter; otherwise it returns `None`. -/
theorem claim_C1_next_item_iff (campaigns : List KickCampaign)
    (progress : List KickProgressCampaign) (prefs : List String)
    (hintId hintName : Option String) (queue : List QueueItem)
    (cache : LiveCache) (now : Int) (net : String → Option (Bool × Int))
    (hq : queue ≠ []) :
    (getNextQueueItem campaigns progress prefs hintId hintName
        queue cache now net).1.isSome =
      queue.any fun item =>
        (itemPass campaigns progress (preferredGameFilter prefs).1
          (preferredGameFilter prefs).2 now item).isCandidate := by
  have h1 : (getNextQueueItem campaigns progress prefs hintId hintName
      queue cache now net).1 =
      (runNextLoop campaigns progress (preferredGameFilter prefs).1
        (preferredGameFilter prefs).2 now net
        (selectOrderedItems hintId hintName queue).1 cache none []).1 := rfl
  rw [h1, runNextLoop_isSome]
  simp [selectOrderedItems_any]

/-- C1 witness: a singleton PENDING queue with no matching campaign
yields a candidate, so an item is returned. -/
theorem claim_C1_witness :
    ([cexC3ManualItem] ≠ ([] : List QueueItem)) ∧
    ((getNextQueueItem [] [] [] none none [cexC3ManualItem] [] 0
        fun _ => none).1.isSome =
      [cexC3ManualItem].any fun item =>
        (itemPass [] [] (preferredGameFilter []).1
          (preferredGameFilter []).2 0 item).isCandidate) :=
  ⟨by simp, claim_C1_next_item_iff [] [] [] none none [cexC3ManualItem] [] 0
    (fun _ => none) (by simp)⟩

theorem dropWs_length_le (l : List Char) : (dropWs l).length ≤ l.length := by
  induction l with
  | nil => simp [dropWs]
  | cons c t ih =>
    simp only [dropWs, List.dropWhile_cons, List.length_cons] at *
    split
    · omega
    · simp

theorem dropWs_eq_self_of_length (l : List Char)
    (h : (dropWs l).length = l.length) : dropWs l = l := by
  have ht := List.takeWhile_append_dropWhile (fun c => c.isWhitespace) l
  have hlen : (l.takeWhile fun c => c.isWhitespace).length + (dropWs l).length =
      l.length := by
    rw [← List.length_append]
    rw [show l.takeWhile (fun c => c.isWhitespace) ++ dropWs l = l from ht]
  have h0 : (l.takeWhile fun c => c.isWhitespace).length = 0 := by omega
  have hnil : (l.takeWhile fun c => c.isWhitespace) = [] :=
    List.length_eq_zero.mp h0
  calc dropWs l = (l.takeWhile fun c => c.isWhitespace) ++ dropWs l := by
        rw [hnil]
        simp
    _ = l := ht

theorem stringMk_data (s : String) : String.mk s.data = s := rfl

theorem string_data_ne {a : String} (h : a ≠ "") : a.data ≠ [] := by
  intro hd
  apply h
  have := congrArg String.mk hd
  simpa using this

theorem pyStrip_parts (s : String) (h : pyStrip s = s) :
    dropWs s.data = s.data ∧ dropWs s.data.reverse = s.data.reverse := by
  have hdata : (((dropWs s.data).reverse |> dropWs).reverse) = s.data := by
    have := congrArg String.data h
    simpa [pyStrip] using this
  have hl1 : (dropWs ((dropWs s.data).reverse)).length = s.data.length := by
    have := congrArg List.length hdata
    simpa using this
  have hle1 : (dropWs ((dropWs s.data).reverse)).length ≤
      (dropWs s.data).length := by
    have := dropWs_length_le ((dropWs s.data).reverse)
    simpa using this
  have hle2 : (dropWs s.data).length ≤ s.data.length := dropWs_length_le _
  have heq1 : (dropWs s.data).length = s.data.length := by omega
  have hfst : dropWs s.data = s.data := dropWs_eq_self_of_length _ heq1
  refine ⟨hfst, ?_⟩
  rw [hfst] at hl1
  have := dropWs_eq_self_of_length (s.data.reverse) (by simpa using hl1)
  exact this

theorem dropWs_append_of_head (a b : List Char) (h : dropWs a = a) (h0 : a ≠ []) :
    dropWs (a ++ b) = a ++ b := by
  cases a with
  | nil => exact absurd rfl h0
  | cons c t =>
    have h' : (c :: t).dropWhile (fun c => c.isWhitespace) = c :: t := h
    have hc : c.isWhitespace = false :=
      dropWhile_head_not (fun c => c.isWhitespace) (c :: t) h' 
    simp [dropWs, List.dropWhile_cons, hc]

theorem pyStrip_append (a b : String) (ha : pyStrip a = a) (hb : pyStrip b = b)
    (ha0 : a ≠ "") (hb0 : b ≠ "") : pyStrip (a ++ b) = a ++ b := by
  obtain ⟨hda, _⟩ := pyStrip_parts a ha
  obtain ⟨_, hrb⟩ := pyStrip_parts b hb
  have h1 : dropWs (a ++ b).data = (a ++ b).data := by
    rw [String.data_append]
    exact dropWs_append_of_head _ _ hda (string_data_ne ha0)
  have h2 : dropWs ((a ++ b).data.reverse) = (a ++ b).data.reverse := by
    rw [String.data_append, List.reverse_append]
    exact dropWs_append_of_head _ _ hrb (by
      simpa using string_data_ne hb0)
  show String.mk (((dropWs (a ++ b).data).reverse |> dropWs).reverse) = a ++ b
  rw [h1, h2]
  simp only [List.reverse_reverse]

theorem dictFind_foldl_isSome {α : Type} (k : String) :
    ∀ (d : List (String × α)) (acc : Option α),
      (d.foldl (fun acc p => if p.1 = k then some p.2 else acc) acc).isSome =
        (acc.isSome || d.any fun p => decide (p.1 = k)) := by
  intro d
  induction d with
  | nil => intro acc; simp
  | cons p t ih =>
    intro acc
    rw [List.foldl_cons]
    by_cases h : p.1 = k
    · rw [ih]
      simp [h]
    · rw [ih]
      simp [h]

theorem dictFind_none_not_mem {α : Type} {d : List (String × α)} {k : String}
    (h : ¬ (dictFind d k).isSome = true) : k ∉ d.map Prod.fst := by
  intro hmem
  apply h
  rw [dictFind, dictFind_foldl_isSome]
  obtain ⟨p, hp, hpk⟩ := List.mem_map.mp hmem
  refine Bool.or_eq_true_iff.mpr (Or.inr ?_)
  exact List.any_eq_true.mpr ⟨p, hp, by simp [hpk]⟩

theorem dictSet_keys_nodup {α : Type} (d : List (String × α)) (k : String) (v : α)
    (h : (d.map Prod.fst).Nodup) : ((dictSet d k v).map Prod.fst).Nodup := by
  unfold dictSet
  split
  · have : (d.map fun p => if p.1 = k then (p.1, v) else p).map Prod.fst =
        d.map Prod.fst := by
      rw [List.map_map]
      apply List.map_congr_left
      intro p _
      by_cases hp : p.1 = k <;> simp [hp]
    rw [this]
    exact h
  · rename_i hnone
    rw [List.map_append]
    refine List.Nodup.append h (List.nodup_singleton k) ?_
    intro x hx hxk
    rw [List.mem_singleton.mp hxk] at hx
    exact dictFind_none_not_mem hnone hx

theorem dictSet_forall {α : Type} (P : String × α → Prop) (d : List (String × α))
    (k : String) (v : α) (hd : ∀ p ∈ d, P p) (hkv : P (k, v)) :
    ∀ p ∈ dictSet d k v, P p := by
  intro p hp
  unfold dictSet at hp
  split at hp
  · obtain ⟨q, hq, hpq⟩ := List.mem_map.mp hp
    by_cases h : q.1 = k
    · rw [if_pos h] at hpq
      rw [← hpq, h]
      exact hkv
    · rw [if_neg h] at hpq
      rw [← hpq]
      exact hd q hq
  · rcases List.mem_append.mp hp with h | h
    · exact hd p h
    · rw [List.mem_singleton.mp h]
      exact hkv

theorem desiredStepChannel_cache (campaign : KickCampaign) (now : Int)
    (net : String → Option (Bool × Int)) (cache : LiveCache)
    (hsnap : ∀ slug, (getChannelLiveSnapshot cache now net slug 45 true).2 = cache)
    (st : List (String × DesiredRow) × LiveCache) (channel : KickChannel)
    (h : st.2 = cache) :
    (desiredStepChannel campaign now net st channel).2 = cache := by
  simp only [desiredStepChannel]
  rw [h]
  repeat' split
  all_goals first
  | exact h
  | exact hsnap _

theorem foldl_channels_cache (campaign : KickCampaign) (now : Int)
    (net : String → Option (Bool × Int)) (cache : LiveCache)
    (hsnap : ∀ slug, (getChannelLiveSnapshot cache now net slug 45 true).2 = cache) :
    ∀ (channels : List KickChannel) (st : List (String × DesiredRow) × LiveCache),
      st.2 = cache →
      (channels.foldl (desiredStepChannel campaign now net) st).2 = cache := by
  intro channels
  induction channels with
  | nil => intro st h; exact h
  | cons ch t ih =>
    intro st h
    rw [List.foldl_cons]
    exact ih _ (desiredStepChannel_cache campaign now net cache hsnap st ch h)

theorem foldl_campaigns_cache (mineAll : Bool) (selected : List String) (now : Int)
    (net : String → Option (Bool × Int)) (cache : LiveCache)
    (hsnap : ∀ slug, (getChannelLiveSnapshot cache now net slug 45 true).2 = cache) :
    ∀ (campaigns : List KickCampaign)
      (st : List (String × DesiredRow) × LiveCache),
      st.2 = cache →
      (campaigns.foldl (desiredStepCampaign mineAll selected now net) st).2 =
        cache := by
  intro campaigns
  induction campaigns with
  | nil => intro st h; exact h
  | cons c t ih =>
    intro st h
    rw [List.foldl_cons]
    apply ih
    simp only [desiredStepCampaign]
    split
    · exact h
    · split
      · exact h
      · exact foldl_channels_cache c now net cache hsnap c.channels st h

theorem buildDesired_cache (campaigns : List KickCampaign) (mineAll : Bool)
    (selected : List String) (now : Int) (net : String → Option (Bool × Int))
    (cache : LiveCache)
    (hsnap : ∀ slug, (getChannelLiveSnapshot cache now net slug 45 true).2 = cache) :
    (buildDesired campaigns mineAll selected now net cache).2 = cache :=
  foldl_campaigns_cache mineAll selected now net cache hsnap campaigns ([], cache) rfl

theorem desiredStepChannel_inv (campaign : KickCampaign) (now : Int)
    (net : String → Option (Bool × Int))
    (st : List (String × DesiredRow) × LiveCache) (channel : KickChannel)
    (hch : pyStrip channel.url = channel.url ∧ pyStrip channel.slug = channel.slug)
    (h : (st.1.map Prod.fst).Nodup ∧ ∀ p ∈ st.1, p.1 = rowUrl p.2 ∧ p.1 ≠ "") :
    (((desiredStepChannel campaign now net st channel).1.map Prod.fst).Nodup ∧
      ∀ p ∈ (desiredStepChannel campaign now net st channel).1,
        p.1 = rowUrl p.2 ∧ p.1 ≠ "") := by
  simp only [desiredStepChannel]
  split
  · exact h
  · rename_i hslug
    have hslug0 : channel.slug ≠ "" := by
      intro h0
      apply hslug
      rw [h0]
      rfl
    have hkey : ∀ r : DesiredRow, r.channel = channel →
        pyStrip (if channel.url ≠ "" then channel.url
          else "https://kick.com/" ++ pyStrip channel.slug) = rowUrl r := by
      intro r hr
      simp only [rowUrl, hr]
      by_cases hcu : channel.url ≠ ""
      · rw [if_pos hcu, if_pos hcu]
        exact hch.1
      · rw [if_neg hcu, if_neg hcu, hch.2]
        exact pyStrip_append "https://kick.com/" channel.slug (by decide)
          hch.2 (by decide) hslug0
    generalize hU : pyStrip (if channel.url ≠ "" then channel.url
        else "https://kick.com/" ++ pyStrip channel.slug) = U at hkey ⊢
    split
    · exact h
    · rename_i hurl
      split
      · constructor
        · exact dictSet_keys_nodup _ _ _ h.1
        · exact dictSet_forall _ _ _ _ h.2 ⟨hkey _ rfl, hurl⟩
      · split
        · constructor
          · exact dictSet_keys_nodup _ _ _ h.1
          · exact dictSet_forall _ _ _ _ h.2 ⟨hkey _ rfl, hurl⟩
        · exact h

theorem foldl_channels_inv (campaign : KickCampaign) (now : Int)
    (net : String → Option (Bool × Int)) :
    ∀ (channels : List KickChannel)
      (st : List (String × DesiredRow) × LiveCache),
      (∀ ch ∈ channels, pyStrip ch.url = ch.url ∧ pyStrip ch.slug = ch.slug) →
      ((st.1.map Prod.fst).Nodup ∧ ∀ p ∈ st.1, p.1 = rowUrl p.2 ∧ p.1 ≠ "") →
      (((channels.foldl (desiredStepChannel campaign now net) st).1.map
          Prod.fst).Nodup ∧
        ∀ p ∈ (channels.foldl (desiredStepChannel campaign now net) st).1,
          p.1 = rowUrl p.2 ∧ p.1 ≠ "") := by
  intro channels
  induction channels with
  | nil => intro st _ h; exact h
  | cons ch t ih =>
    intro st hcl h
    rw [List.foldl_cons]
    exact ih _ (fun c hc => hcl c (List.mem_cons_of_mem _ hc))
      (desiredStepChannel_inv campaign now net st ch
        (hcl ch (List.mem_cons_self ch t)) h)

theorem foldl_campaigns_inv (mineAll : Bool) (selected : List String) (now : Int)
    (net : String → Option (Bool × Int)) :
    ∀ (campaigns : List KickCampaign)
      (st : List (String × DesiredRow) × LiveCache),
      (∀ c ∈ campaigns, ∀ ch ∈ c.channels,
        pyStrip ch.url = ch.url ∧ pyStrip ch.slug = ch.slug) →
      ((st.1.map Prod.fst).Nodup ∧ ∀ p ∈ st.1, p.1 = rowUrl p.2 ∧ p.1 ≠ "") →
      (((campaigns.foldl (desiredStepCampaign mineAll selected now net)
          st).1.map Prod.fst).Nodup ∧
        ∀ p ∈ (campaigns.foldl (desiredStepCampaign mineAll selected now net)
            st).1, p.1 = rowUrl p.2 ∧ p.1 ≠ "") := by
  intro campaigns
  induction campaigns with
  | nil => intro st _ h; exact h
  | cons c t ih =>
    intro st hcl h
    rw [List.foldl_cons]
    refine ih _ (fun c hc => hcl c (List.mem_cons_of_mem _ hc)) ?_
    simp only [desiredStepCampaign]
    split
    · exact h
    · split
      · exact h
      · exact foldl_channels_inv c now net c.channels st
          (hcl c (List.mem_cons_self c t)) h

theorem buildDesired_inv (campaigns : List KickCampaign) (mineAll : Bool)
    (selected : List String) (now : Int) (net : String → Option (Bool × Int))
    (cache : LiveCache)
    (hclean : ∀ c ∈ campaigns, ∀ ch ∈ c.channels,
      pyStrip ch.url = ch.url ∧ pyStrip ch.slug = ch.slug) :
    (((buildDesired campaigns mineAll selected now net cache).1.map
        Prod.fst).Nodup ∧
      ∀ p ∈ (buildDesired campaigns mineAll selected now net cache).1,
        p.1 = rowUrl p.2 ∧ p.1 ≠ "") :=
  foldl_campaigns_inv mineAll selected now net campaigns ([], cache) hclean
    (by simp)

theorem reconUpd_url (e : QueueItem) (row : DesiredRow) :
    (reconUpd e row).url = e.url := by
  simp only [reconUpd]
  split <;> rfl

theorem stepItem_url (q : List QueueItem) (row : DesiredRow) :
    (stepItem q row).url = rowUrl row := by
  unfold stepItem
  cases hfind : firstExistingByUrl q (rowUrl row) with
  | none => rfl
  | some e =>
    rw [reconUpd_url]
    exact firstExistingByUrl_url hfind

theorem reconcileRows_parts (q : List QueueItem) :
    ∀ (rows : List DesiredRow) (p : List QueueItem) (us : List String)
      (a u : Nat),
      (rows.foldl (reconcileStep q) (p, us, a, u)).1 =
        p ++ rows.map (stepItem q) ∧
      (rows.foldl (reconcileStep q) (p, us, a, u)).2.1 =
        us ++ rows.map rowUrl := by
  intro rows
  induction rows with
  | nil => intro p us a u; simp
  | cons row rest ih =>
    intro p us a u
    rw [List.foldl_cons]
    cases hfind : firstExistingByUrl q (rowUrl row) with
    | none =>
      have hstep : reconcileStep q (p, us, a, u) row =
          (p ++ [reconFresh row], us ++ [rowUrl row], a + 1, u) := by
        simp only [reconcileStep, hfind]
      rw [hstep]
      obtain ⟨h1, h2⟩ := ih (p ++ [reconFresh row]) (us ++ [rowUrl row]) (a + 1) u
      refine ⟨?_, ?_⟩
      · rw [h1]
        simp only [List.map_cons, List.append_assoc, List.singleton_append]
        rw [show stepItem q row = reconFresh row from by
          unfold stepItem; rw [hfind]]
      · rw [h2]
        simp [List.append_assoc]
    | some e =>
      have hstep : reconcileStep q (p, us, a, u) row =
          (p ++ [reconUpd e row], us ++ [rowUrl row], a,
            if reconChanged e row = true then u + 1 else u) := by
        simp only [reconcileStep, hfind]
      rw [hstep]
      obtain ⟨h1, h2⟩ := ih (p ++ [reconUpd e row]) (us ++ [rowUrl row]) a
        (if reconChanged e row = true then u + 1 else u)
      refine ⟨?_, ?_⟩
      · rw [h1]
        simp only [List.map_cons, List.append_assoc, List.singleton_append]
        rw [show stepItem q row = reconUpd e row from by
          unfold stepItem; rw [hfind]]
      · rw [h2]
        simp [List.append_assoc]

theorem firstExisting_map_step (q0 : List QueueItem) :
    ∀ (rows : List DesiredRow) (leftovers : List QueueItem),
      (rows.map rowUrl).Nodup →
      (∀ row ∈ rows, rowUrl row ≠ "") →
      (∀ l ∈ leftovers, l.url ∉ rows.map rowUrl) →
      ∀ row ∈ rows,
        firstExistingByUrl (rows.map (stepItem q0) ++ leftovers) (rowUrl row) =
          some (stepItem q0 row) := by
  intro rows
  induction rows with
  | nil =>
    intro _ _ _ _ row h
    exact absurd h (List.not_mem_nil row)
  | cons r rs ih =>
    intro leftovers hnd hne hleft row hrow
    rcases List.mem_cons.mp hrow with heq | hmem
    · subst heq
      unfold firstExistingByUrl
      rw [List.map_cons, List.cons_append, List.find?_cons_of_pos]
      simp only [Bool.and_eq_true, decide_eq_true_eq, ne_eq, Bool.not_eq_true',
        decide_eq_false_iff_not]
      refine ⟨?_, stepItem_url q0 row⟩
      rw [stepItem_url]
      exact hne row (List.mem_cons_self row rs)
    · have hhd : (stepItem q0 r).url ≠ rowUrl row := by
        rw [stepItem_url]
        intro hcontra
        have : rowUrl row ∈ rs.map rowUrl :=
          List.mem_map.mpr ⟨row, hmem, rfl⟩
        rw [← hcontra] at this
        exact (List.nodup_cons.mp hnd).1 this
      unfold firstExistingByUrl
      rw [List.map_cons, List.cons_append, List.find?_cons_of_neg]
      · exact ih leftovers (List.nodup_cons.mp hnd).2
          (fun x hx => hne x (List.mem_cons_of_mem _ hx))
          (fun l hl hmem2 => hleft l hl (List.mem_cons_of_mem _ hmem2))
          row hmem
      · simp only [Bool.and_eq_true, decide_eq_true_eq, not_and]
        intro _
        exact hhd

theorem reconUpd_status_ne (e : QueueItem) (row : DesiredRow) :
    (reconUpd e row).status ≠ "EXPIRED" := by
  simp only [reconUpd]
  split
  · simp
  · rename_i hs
    exact hs

theorem reconUpd_eq_self (u : QueueItem) (row : DesiredRow)
    (h1 : u.campaign_id = some row.campaign.id)
    (h2 : u.campaign_name = some row.campaign.name)
    (h3 : u.category_id = row.campaign.category_id)
    (h4 : u.notes = buildAutoGamesItemNotes row.campaign row.channel row.viewers)
    (h5 : u.status ≠ "EXPIRED") :
    reconUpd u row = u := by
  cases u with
  | mk url mt es st cid cname catid notes =>
    simp only at h1 h2 h3 h4 h5
    subst h1
    subst h2
    subst h3
    subst h4
    simp only [reconUpd]
    rw [if_neg h5]

theorem reconUpd_fields (e : QueueItem) (row : DesiredRow) :
    (reconUpd e row).campaign_id = some row.campaign.id ∧
    (reconUpd e row).campaign_name = some row.campaign.name ∧
    (reconUpd e row).category_id = row.campaign.category_id ∧
    (reconUpd e row).notes =
      buildAutoGamesItemNotes row.campaign row.channel row.viewers := by
  simp only [reconUpd]
  split <;> exact ⟨rfl, rfl, rfl, rfl⟩

theorem reconUpd_idem (e : QueueItem) (row : DesiredRow) :
    reconUpd (reconUpd e row) row = reconUpd e row := by
  obtain ⟨f1, f2, f3, f4⟩ := reconUpd_fields e row
  exact reconUpd_eq_self _ row f1 f2 f3 f4 (reconUpd_status_ne e row)

theorem reconUpd_fresh (row : DesiredRow) :
    reconUpd (reconFresh row) row = reconFresh row := rfl

theorem stepItem_recon_idem (q : List QueueItem) (row : DesiredRow) :
    reconUpd (stepItem q row) row = stepItem q row := by
  unfold stepItem
  cases hfind : firstExistingByUrl q (rowUrl row) with
  | none => exact reconUpd_fresh row
  | some e => exact reconUpd_idem e row

theorem reconChanged_of_idem {e : QueueItem} {row : DesiredRow}
    (h : reconUpd e row = e) : reconChanged e row = false := by
  simp [reconChanged, h]

theorem foldl_recon_noop (q : List QueueItem) :
    ∀ (rows : List DesiredRow),
      (∀ row ∈ rows, ∃ e, firstExistingByUrl q (rowUrl row) = some e ∧
        reconUpd e row = e ∧ reconChanged e row = false) →
      ∀ (p : List QueueItem) (us : List String) (a u : Nat),
        rows.foldl (reconcileStep q) (p, us, a, u) =
          (p ++ rows.map (stepItem q), us ++ rows.map rowUrl, a, u) := by
  intro rows
  induction rows with
  | nil => intro _ p us a u; simp
  | cons row rest ih =>
    intro h p us a u
    obtain ⟨e, hfind, hupd, hch⟩ := h row (List.mem_cons_self row rest)
    rw [List.foldl_cons]
    have hstep : reconcileStep q (p, us, a, u) row =
        (p ++ [e], us ++ [rowUrl row], a, u) := by
      simp only [reconcileStep, hfind, hupd, hch]
      simp
    rw [hstep, ih (fun r hr => h r (List.mem_cons_of_mem _ hr))]
    have hse : stepItem q row = e := by
      unfold stepItem
      rw [hfind]
      exact hupd
    rw [← hse]
    simp [List.append_assoc]

theorem stepItem_of_find {q : List QueueItem} {row : DesiredRow} {e : QueueItem}
    (h : firstExistingByUrl q (rowUrl row) = some e) :
    stepItem q row = reconUpd e row := by
  unfold stepItem
  rw [h]

theorem ordered_facts (campaigns : List KickCampaign) (mineAll : Bool)
    (selected : List String) (now : Int) (net : String → Option (Bool × Int))
    (cache : LiveCache)
    (hclean : ∀ c ∈ campaigns, ∀ ch ∈ c.channels,
      pyStrip ch.url = ch.url ∧ pyStrip ch.slug = ch.slug) :
    (((((buildDesired campaigns mineAll selected now net cache).1.map
      Prod.snd).mergeSort fun a b => keyLeb a.sortKey b.sortKey).map rowUrl).Nodup ∧
      ∀ row ∈ (((buildDesired campaigns mineAll selected now net cache).1.map
      Prod.snd).mergeSort fun a b => keyLeb a.sortKey b.sortKey), rowUrl row ≠ "") := by
  obtain ⟨hnd, hall⟩ :=
    buildDesired_inv campaigns mineAll selected now net cache hclean
  have hperm : List.Perm (((buildDesired campaigns mineAll selected now net cache).1.map
      Prod.snd).mergeSort fun a b => keyLeb a.sortKey b.sortKey)
      ((buildDesired campaigns mineAll selected now net cache).1.map Prod.snd) :=
    List.mergeSort_perm _ _
  constructor
  · have hmap : ((buildDesired campaigns mineAll selected now net
        cache).1.map Prod.snd).map rowUrl =
        (buildDesired campaigns mineAll selected now net cache).1.map Prod.fst := by
      rw [List.map_map]
      apply List.map_congr_left
      intro p hp
      exact ((hall p hp).1).symm
    have hQ := hperm.map rowUrl
    rw [hmap] at hQ
    exact hQ.symm.nodup hnd
  · intro row hrow
    have hmem : row ∈ (buildDesired campaigns mineAll selected now net
        cache).1.map Prod.snd := hperm.subset hrow
    obtain ⟨p, hp, hps⟩ := List.mem_map.mp hmem
    rw [← hps, ← (hall p hp).1]
    exact (hall p hp).2

theorem autoQueueCore_idem (campaigns : List KickCampaign) (mineAll : Bool)
    (selected : List String) (queue : List QueueItem) (cache : LiveCache)
    (now : Int) (net : String → Option (Bool × Int))
    (hsnap : ∀ slug, (getChannelLiveSnapshot cache now net slug 45 true).2 = cache)
    (hclean : ∀ c ∈ campaigns, ∀ ch ∈ c.channels,
      pyStrip ch.url = ch.url ∧ pyStrip ch.slug = ch.slug) :
    (autoQueueCore campaigns mineAll selected
        (autoQueueCore campaigns mineAll selected queue cache now net).1
        cache now net).1 =
      (autoQueueCore campaigns mineAll selected queue cache now net).1 ∧
    (autoQueueCore campaigns mineAll selected
        (autoQueueCore campaigns mineAll selected queue cache now net).1
        cache now net).2.2.2 = (0, 0, 0) := by
  obtain ⟨hndU, hneU⟩ :=
    ordered_facts campaigns mineAll selected now net cache hclean
  have hpart1 : (reconcileRows queue (((buildDesired campaigns mineAll selected now net cache).1.map
      Prod.snd).mergeSort fun a b => keyLeb a.sortKey b.sortKey)).1 = (((buildDesired campaigns mineAll selected now net cache).1.map
      Prod.snd).mergeSort fun a b => keyLeb a.sortKey b.sortKey).map (stepItem queue) := by
    have h := (reconcileRows_parts queue (((buildDesired campaigns mineAll selected now net cache).1.map
      Prod.snd).mergeSort fun a b => keyLeb a.sortKey b.sortKey) [] [] 0 0).1
    simpa [reconcileRows] using h
  have hurls1 : (reconcileRows queue (((buildDesired campaigns mineAll selected now net cache).1.map
      Prod.snd).mergeSort fun a b => keyLeb a.sortKey b.sortKey)).2.1 = (((buildDesired campaigns mineAll selected now net cache).1.map
      Prod.snd).mergeSort fun a b => keyLeb a.sortKey b.sortKey).map rowUrl := by
    have h := (reconcileRows_parts queue (((buildDesired campaigns mineAll selected now net cache).1.map
      Prod.snd).mergeSort fun a b => keyLeb a.sortKey b.sortKey) [] [] 0 0).2
    simpa [reconcileRows] using h
  have hq1 : (autoQueueCore campaigns mineAll selected queue cache now net).1 =
      (((buildDesired campaigns mineAll selected now net cache).1.map
      Prod.snd).mergeSort fun a b => keyLeb a.sortKey b.sortKey).map (stepItem queue) ++ queue.filter (fun i =>
        !(((((buildDesired campaigns mineAll selected now net cache).1.map
      Prod.snd).mergeSort fun a b => keyLeb a.sortKey b.sortKey).map rowUrl).contains i.url) && !(isAutoGamesChannelItem i)) := by
    have h0 : (autoQueueCore campaigns mineAll selected queue cache now net).1 =
        (reconcileRows queue (((buildDesired campaigns mineAll selected now net cache).1.map
      Prod.snd).mergeSort fun a b => keyLeb a.sortKey b.sortKey)).1 ++ queue.filter (fun i =>
          !((reconcileRows queue (((buildDesired campaigns mineAll selected now net cache).1.map
      Prod.snd).mergeSort fun a b => keyLeb a.sortKey b.sortKey)).2.1.contains i.url) &&
          !(isAutoGamesChannelItem i)) := rfl
    rw [h0, hpart1, hurls1]
  have hlf : ∀ l ∈ queue.filter (fun i =>
      !(((((buildDesired campaigns mineAll selected now net cache).1.map
      Prod.snd).mergeSort fun a b => keyLeb a.sortKey b.sortKey).map rowUrl).contains i.url) && !(isAutoGamesChannelItem i)),
      (((((buildDesired campaigns mineAll selected now net cache).1.map
      Prod.snd).mergeSort fun a b => keyLeb a.sortKey b.sortKey).map rowUrl).contains l.url) = false ∧
        isAutoGamesChannelItem l = false := by
    intro l hl
    have h := (List.mem_filter.mp hl).2
    simpa [Bool.and_eq_true, Bool.not_eq_true'] using h
  have hfind : ∀ row ∈ (((buildDesired campaigns mineAll selected now net cache).1.map
      Prod.snd).mergeSort fun a b => keyLeb a.sortKey b.sortKey), firstExistingByUrl
      (autoQueueCore campaigns mineAll selected queue cache now net).1
      (rowUrl row) = some (stepItem queue row) := by
    intro row hrow
    rw [hq1]
    refine firstExisting_map_step queue (((buildDesired campaigns mineAll selected now net cache).1.map
      Prod.snd).mergeSort fun a b => keyLeb a.sortKey b.sortKey) _ hndU hneU ?_ row hrow
    intro l hl
    have h2 := (hlf l hl).1
    simpa using h2
  have hnoop : reconcileRows
      (autoQueueCore campaigns mineAll selected queue cache now net).1 (((buildDesired campaigns mineAll selected now net cache).1.map
      Prod.snd).mergeSort fun a b => keyLeb a.sortKey b.sortKey) =
      ((((buildDesired campaigns mineAll selected now net cache).1.map
      Prod.snd).mergeSort fun a b => keyLeb a.sortKey b.sortKey).map (stepItem
          (autoQueueCore campaigns mineAll selected queue cache now net).1),
        (((buildDesired campaigns mineAll selected now net cache).1.map
      Prod.snd).mergeSort fun a b => keyLeb a.sortKey b.sortKey).map rowUrl, 0, 0) := by
    have h := foldl_recon_noop
      (autoQueueCore campaigns mineAll selected queue cache now net).1 (((buildDesired campaigns mineAll selected now net cache).1.map
      Prod.snd).mergeSort fun a b => keyLeb a.sortKey b.sortKey)
      (fun row hrow => ⟨stepItem queue row, hfind row hrow,
        stepItem_recon_idem queue row,
        reconChanged_of_idem (stepItem_recon_idem queue row)⟩) [] [] 0 0
    simpa [reconcileRows] using h
  have hsame : (((buildDesired campaigns mineAll selected now net cache).1.map
      Prod.snd).mergeSort fun a b => keyLeb a.sortKey b.sortKey).map (stepItem
      (autoQueueCore campaigns mineAll selected queue cache now net).1) =
      (((buildDesired campaigns mineAll selected now net cache).1.map
      Prod.snd).mergeSort fun a b => keyLeb a.sortKey b.sortKey).map (stepItem queue) :=
    List.map_congr_left (fun row hrow =>
      (stepItem_of_find (hfind row hrow)).trans (stepItem_recon_idem queue row))
  have hfilmap : ((((buildDesired campaigns mineAll selected now net cache).1.map
      Prod.snd).mergeSort fun a b => keyLeb a.sortKey b.sortKey).map (stepItem queue)).filter (fun i =>
      !(((((buildDesired campaigns mineAll selected now net cache).1.map
      Prod.snd).mergeSort fun a b => keyLeb a.sortKey b.sortKey).map rowUrl).contains i.url) && !(isAutoGamesChannelItem i)) = [] := by
    rw [List.filter_eq_nil_iff]
    intro i hi
    obtain ⟨row, hrow, hie⟩ := List.mem_map.mp hi
    intro hcontra
    rw [Bool.and_eq_true] at hcontra
    have hmemu : i.url ∈ (((buildDesired campaigns mineAll selected now net cache).1.map
      Prod.snd).mergeSort fun a b => keyLeb a.sortKey b.sortKey).map rowUrl := by
      rw [← hie, stepItem_url]
      exact List.mem_map.mpr ⟨row, hrow, rfl⟩
    have hct : ((((buildDesired campaigns mineAll selected now net cache).1.map
      Prod.snd).mergeSort fun a b => keyLeb a.sortKey b.sortKey).map rowUrl).contains i.url = true := by simpa using hmemu
    rw [hct] at hcontra
    simp at hcontra
  have hfilmap2 : ((((buildDesired campaigns mineAll selected now net cache).1.map
      Prod.snd).mergeSort fun a b => keyLeb a.sortKey b.sortKey).map (stepItem queue)).filter (fun i =>
      !(((((buildDesired campaigns mineAll selected now net cache).1.map
      Prod.snd).mergeSort fun a b => keyLeb a.sortKey b.sortKey).map rowUrl).contains i.url) && isAutoGamesChannelItem i) = [] := by
    rw [List.filter_eq_nil_iff]
    intro i hi
    obtain ⟨row, hrow, hie⟩ := List.mem_map.mp hi
    intro hcontra
    rw [Bool.and_eq_true] at hcontra
    have hmemu : i.url ∈ (((buildDesired campaigns mineAll selected now net cache).1.map
      Prod.snd).mergeSort fun a b => keyLeb a.sortKey b.sortKey).map rowUrl := by
      rw [← hie, stepItem_url]
      exact List.mem_map.mpr ⟨row, hrow, rfl⟩
    have hct : ((((buildDesired campaigns mineAll selected now net cache).1.map
      Prod.snd).mergeSort fun a b => keyLeb a.sortKey b.sortKey).map rowUrl).contains i.url = true := by simpa using hmemu
    rw [hct] at hcontra
    simp at hcontra
  have hfillf : (queue.filter (fun i => !(((((buildDesired campaigns mineAll selected now net cache).1.map
      Prod.snd).mergeSort fun a b => keyLeb a.sortKey b.sortKey).map rowUrl).contains i.url) &&
      !(isAutoGamesChannelItem i))).filter (fun i =>
        !(((((buildDesired campaigns mineAll selected now net cache).1.map
      Prod.snd).mergeSort fun a b => keyLeb a.sortKey b.sortKey).map rowUrl).contains i.url) && !(isAutoGamesChannelItem i)) =
      queue.filter (fun i => !(((((buildDesired campaigns mineAll selected now net cache).1.map
      Prod.snd).mergeSort fun a b => keyLeb a.sortKey b.sortKey).map rowUrl).contains i.url) &&
        !(isAutoGamesChannelItem i)) :=
    List.filter_eq_self.mpr (fun a ha => (List.mem_filter.mp ha).2)
  have hfillf2 : (queue.filter (fun i => !(((((buildDesired campaigns mineAll selected now net cache).1.map
      Prod.snd).mergeSort fun a b => keyLeb a.sortKey b.sortKey).map rowUrl).contains i.url) &&
      !(isAutoGamesChannelItem i))).filter (fun i =>
        !(((((buildDesired campaigns mineAll selected now net cache).1.map
      Prod.snd).mergeSort fun a b => keyLeb a.sortKey b.sortKey).map rowUrl).contains i.url) && isAutoGamesChannelItem i) = [] := by
    rw [List.filter_eq_nil_iff]
    intro l hl
    intro hcontra
    rw [Bool.and_eq_true] at hcontra
    rw [(hlf l hl).2] at hcontra
    simp at hcontra
  constructor
  · calc (autoQueueCore campaigns mineAll selected
          (autoQueueCore campaigns mineAll selected queue cache now net).1
          cache now net).1
        = (reconcileRows
            (autoQueueCore campaigns mineAll selected queue cache now net).1
            (((buildDesired campaigns mineAll selected now net cache).1.map
      Prod.snd).mergeSort fun a b => keyLeb a.sortKey b.sortKey)).1 ++
          (autoQueueCore campaigns mineAll selected queue cache now net).1.filter
            (fun i => !((reconcileRows
                (autoQueueCore campaigns mineAll selected queue cache now
                  net).1 (((buildDesired campaigns mineAll selected now net cache).1.map
      Prod.snd).mergeSort fun a b => keyLeb a.sortKey b.sortKey)).2.1.contains i.url) &&
              !(isAutoGamesChannelItem i)) := rfl
      _ = (autoQueueCore campaigns mineAll selected queue cache now net).1 := by
          rw [hnoop]
          dsimp only
          rw [hsame]
          conv_lhs => rw [hq1]
          rw [List.filter_append, hfilmap, hfillf]
          rw [hq1]
          simp
  · have h2c : (autoQueueCore campaigns mineAll selected
        (autoQueueCore campaigns mineAll selected queue cache now net).1
        cache now net).2.2.2 =
        ((reconcileRows
            (autoQueueCore campaigns mineAll selected queue cache now net).1
            (((buildDesired campaigns mineAll selected now net cache).1.map
      Prod.snd).mergeSort fun a b => keyLeb a.sortKey b.sortKey)).2.2.1,
          (reconcileRows
            (autoQueueCore campaigns mineAll selected queue cache now net).1
            (((buildDesired campaigns mineAll selected now net cache).1.map
      Prod.snd).mergeSort fun a b => keyLeb a.sortKey b.sortKey)).2.2.2,
          ((autoQueueCore campaigns mineAll selected queue cache now
            net).1.filter (fun i => !((reconcileRows
              (autoQueueCore campaigns mineAll selected queue cache now
                net).1 (((buildDesired campaigns mineAll selected now net cache).1.map
      Prod.snd).mergeSort fun a b => keyLeb a.sortKey b.sortKey)).2.1.contains i.url) &&
            isAutoGamesChannelItem i)).length) := rfl
    rw [h2c, hnoop]
    dsimp only
    have hlen : ((autoQueueCore campaigns mineAll selected queue cache now
        net).1.filter (fun i => !(((((buildDesired campaigns mineAll selected now net cache).1.map
      Prod.snd).mergeSort fun a b => keyLeb a.sortKey b.sortKey).map rowUrl).contains i.url) &&
        isAutoGamesChannelItem i)).length = 0 := by
      conv_lhs => rw [hq1]
      rw [List.filter_append, hfilmap2, hfillf2]
      simp
    rw [hlen]

/-- C4 (amended): with strip-clean channel urls and slugs and a
liveness cache that answers every snapshot without changing (both runs
see the same per-channel snapshots), a second discovery-reconciliation
run immediately after a first one adds, updates and removes nothing and
leaves the queue unchanged. -/
theorem claim_C4_idempotent (campaigns : List KickCampaign)
    (prefs : List String) (queue : List QueueItem) (cache : LiveCache)
    (now : Int) (net : String → Option (Bool × Int))
    (hsnap : ∀ slug, (getChannelLiveSnapshot cache now net slug 45 true).2 = cache)
    (hclean : ∀ c ∈ campaigns, ∀ ch ∈ c.channels,
      pyStrip ch.url = ch.url ∧ pyStrip ch.slug = ch.slug) :
    (autoQueueSelectedGames campaigns prefs
        (autoQueueSelectedGames campaigns prefs queue cache now net).1
        (autoQueueSelectedGames campaigns prefs queue cache now net).2.1
        now net).1 =
      (autoQueueSelectedGames campaigns prefs queue cache now net).1 ∧
    (autoQueueSelectedGames campaigns prefs
        (autoQueueSelectedGames campaigns prefs queue cache now net).1
        (autoQueueSelectedGames campaigns prefs queue cache now net).2.1
        now net).2.2.2 = (0, 0, 0) := by
  by_cases hc : campaigns = []
  · subst hc
    exact ⟨rfl, rfl⟩
  · have hcore := autoQueueSelectedGames_eq_core campaigns prefs queue cache
      now net hc
    have hcore2 := autoQueueSelectedGames_eq_core campaigns prefs
      (autoQueueSelectedGames campaigns prefs queue cache now net).1
      (autoQueueSelectedGames campaigns prefs queue cache now net).2.1
      now net hc
    have hbd : (autoQueueCore campaigns (preferredGameFilter prefs).1
        (preferredGameFilter prefs).2 queue cache now net).2.1 = cache := by
      have h0 : (autoQueueCore campaigns (preferredGameFilter prefs).1
          (preferredGameFilter prefs).2 queue cache now net).2.1 =
          (buildDesired campaigns (preferredGameFilter prefs).1
            (preferredGameFilter prefs).2 now net cache).2 := rfl
      rw [h0]
      exact buildDesired_cache campaigns _ _ now net cache hsnap
    obtain ⟨hq2, hcnt⟩ := autoQueueCore_idem campaigns
      (preferredGameFilter prefs).1 (preferredGameFilter prefs).2 queue cache
      now net hsnap hclean
    rw [hcore2, hcore, hbd]
    exact ⟨hq2, hcnt⟩

unseal List.merge List.mergeSort replaceAux in
/-- C4 counterexample to the unamended claim: two channels with
whitespace-dirty url/slug yield two desired rows with distinct keys but
the same recomputed queue url, so the second run (with identical
snapshots: the network oracle always fails and the cache stays empty)
still reports a nonzero `updated` count. -/
theorem claim_C4_counterexample :
    (autoQueueSelectedGames [cexC4Campaign] [] [] [] 0 fun _ => none).2.1 =
      ([] : LiveCache) ∧
    (autoQueueSelectedGames [cexC4Campaign] []
        (autoQueueSelectedGames [cexC4Campaign] [] [] [] 0 fun _ => none).1
        (autoQueueSelectedGames [cexC4Campaign] [] [] [] 0 fun _ => none).2.1
        0 fun _ => none).2.2.2.2.1 ≠ 0 := by
  refine ⟨by decide, by decide⟩

/-- C4 witness: the amended theorem applied to a clean concrete
campaign, an empty queue and an empty cache with a failing network
oracle. -/
theorem claim_C4_witness :
    ((∀ slug, (getChannelLiveSnapshot [] 0 (fun _ => none) slug 45 true).2 =
        ([] : LiveCache)) ∧
      (∀ c ∈ [cexC3Campaign], ∀ ch ∈ c.channels,
        pyStrip ch.url = ch.url ∧ pyStrip ch.slug = ch.slug)) ∧
    ((autoQueueSelectedGames [cexC3Campaign] []
        (autoQueueSelectedGames [cexC3Campaign] [] [] [] 0 fun _ => none).1
        (autoQueueSelectedGames [cexC3Campaign] [] [] [] 0 fun _ => none).2.1
        0 fun _ => none).1 =
      (autoQueueSelectedGames [cexC3Campaign] [] [] [] 0 fun _ => none).1 ∧
    (autoQueueSelectedGames [cexC3Campaign] []
        (autoQueueSelectedGames [cexC3Campaign] [] [] [] 0 fun _ => none).1
        (autoQueueSelectedGames [cexC3Campaign] [] [] [] 0 fun _ => none).2.1
        0 fun _ => none).2.2.2 = (0, 0, 0)) :=
  ⟨⟨fun _ => rfl, by decide⟩,
    claim_C4_idempotent [cexC3Campaign] [] [] [] 0 (fun _ => none)
      (fun _ => rfl) (by decide)⟩

end KickDrops
